import Mathlib

/-!
Shallow embedding of `src/main.py` of the `fast` PDF-merge service.

Python strings are modelled as Lean `String` (both are sequences of unicode
codepoints, compared codepoint-wise, which matches Python `<` on `str`).
The filesystem is modelled as a set of directories plus an association list
from resolved absolute paths (component lists) to file contents; file
contents are modelled at PDF granularity (`PdfDoc`), since every file the
pipeline reads back is read as a PDF.  Fallible Python operations return
`Except`/`Option`.  The FastAPI collaborator is modelled by the fact that
`HTTPException` is a subclass of `Exception` (so the handler's blanket
`except Exception` catches it) and that `BackgroundTasks` added to the
returned response run after the response on the success path only.
-/

namespace FastPdf

/-! ### Python string primitives -/

/-- ASCII lowering of a single character, the fragment of `str.lower`
exercised by the program (filenames / the `.pdf` suffix test). -/
def asciiLowerChar (c : Char) : Char :=
  if 'A' ≤ c ∧ c ≤ 'Z' then Char.ofNat (c.toNat + 32) else c

/-- Model of Python `str.lower()` on the strings this program handles. -/
def pyLower (s : String) : String :=
  ⟨s.data.map asciiLowerChar⟩

/-- Model of Python `str.endswith(suffix)`. -/
def pyEndsWith (s suff : String) : Bool :=
  suff.data.isSuffixOf s.data

/-- Python `<` on strings: lexicographic comparison by codepoint. -/
def codepointLt : List Char → List Char → Bool
  | [], [] => false
  | [], _ :: _ => true
  | _ :: _, [] => false
  | a :: as, b :: bs =>
    if a.toNat < b.toNat then true
    else if b.toNat < a.toNat then false
    else codepointLt as bs

/-- Python `<` on `str`. -/
def strLt (a b : String) : Bool := codepointLt a.data b.data

/-- Non-strict comparison used to model Python's stable ascending `sorted`. -/
def strLe (a b : String) : Bool := !(strLt b a)

/-- Stable insertion into a sorted list (helper for the model of `sorted`). -/
def insertLe {α : Type} (le : α → α → Bool) (x : α) : List α → List α
  | [] => [x]
  | y :: ys => if le x y then x :: y :: ys else y :: insertLe le x ys

/-- Model of Python `sorted`: the stable ascending reordering of a list
(insertion sort with a non-strict comparison is stable and ascending,
hence produces exactly the list `sorted` produces). -/
def sortLe {α : Type} (le : α → α → Bool) (l : List α) : List α :=
  l.foldr (insertLe le) []

/-! ### POSIX paths -/

/-- Split a character list on `/` (the path separator). -/
def splitOnSlash : List Char → List (List Char)
  | [] => [[]]
  | c :: cs =>
    if c = '/' then [] :: splitOnSlash cs
    else
      match splitOnSlash cs with
      | [] => [[c]]
      | p :: ps => (c :: p) :: ps

/-- A resolved absolute path, as its list of components. -/
abbrev FsPath := List String

/-- Kernel of OS-level resolution of an absolute path: empty components and
`.` are skipped, `..` removes the previous component (the root's parent is
the root). -/
def resolveComps (acc : FsPath) : List String → FsPath
  | [] => acc
  | c :: cs =>
    if c = "" ∨ c = "." then resolveComps acc cs
    else if c = ".." then resolveComps acc.dropLast cs
    else resolveComps (acc ++ [c]) cs

/-- Resolve an absolute path string to its component list, as the OS does
when the program opens / renames / lists it. -/
def resolvePath (p : String) : FsPath :=
  resolveComps [] ((splitOnSlash p.data).map (fun l => ⟨l⟩))

/-- Whether a string starts with the path separator. -/
def startsWithSlash (s : String) : Bool :=
  match s.data with
  | [] => false
  | c :: _ => c = '/'

/-- Whether a string ends with the path separator. -/
def endsWithSlashCh (s : String) : Bool :=
  match s.data.getLast? with
  | some c => c = '/'
  | none => false

/-- Model of `os.path.join` (POSIX, two arguments), following `posixpath.join`:
an absolute second argument replaces the first, otherwise a separator is
inserted unless one is already present. -/
def posixJoin (a b : String) : String :=
  if startsWithSlash b then b
  else if a = "" ∨ endsWithSlashCh a then a ++ b
  else a ++ "/" ++ b

/-- Drop trailing `/` characters (helper for `posixDirname`). -/
def rstripSlash (l : List Char) : List Char :=
  (l.reverse.dropWhile (fun c => c = '/')).reverse

/-- Model of `os.path.dirname` (POSIX): the prefix up to the last separator,
stripped of trailing separators unless it consists only of separators. -/
def posixDirname (p : String) : String :=
  let cs := p.data
  let i := cs.length - (cs.reverse.takeWhile (fun c => c ≠ '/')).length
  let head := cs.take i
  if head ≠ [] ∧ ¬ head.all (fun c => c = '/') then ⟨rstripSlash head⟩ else ⟨head⟩

/-- Render a resolved component list back to the absolute path string the
OS hands out (e.g. the name of a fresh temporary directory). -/
def joinComps : List String → List Char
  | [] => []
  | [c] => c.data
  | c :: rest => c.data ++ '/' :: joinComps rest

/-- The absolute path string of a component list. -/
def renderAbs (w : FsPath) : String := ⟨'/' :: joinComps w⟩

/-! ### The PDF document model -/

/-- A page of a PDF: `pid` is the identity of the page object (which page of
which source document it is), `stream` its content-stream bytes. -/
structure PdfPage where
  pid : Nat
  stream : List Nat
deriving DecidableEq

/-- A PDF document: its ordered pages, plus the password it is encrypted
with, if any. -/
structure PdfDoc where
  pages : List PdfPage
  encryption : Option String
deriving DecidableEq

/-- Model of `pypdf`'s `page.compress_content_streams()`: the page object is
kept, its content stream is recompressed by the library's stream compressor
`flate` (an external collaborator, universally quantified in all theorems). -/
def compressPage (flate : List Nat → List Nat) (p : PdfPage) : PdfPage :=
  { p with stream := flate p.stream }

/-! ### The filesystem model -/

/-- Look up the value of a key in an association list of files. -/
def findVal (l : List (FsPath × PdfDoc)) (k : FsPath) : Option PdfDoc :=
  match l with
  | [] => none
  | e :: rest => if e.1 = k then some e.2 else findVal rest k

/-- Write-or-overwrite a key in an association list of files. -/
def updateAssoc (l : List (FsPath × PdfDoc)) (k : FsPath) (v : PdfDoc) :
    List (FsPath × PdfDoc) :=
  match l with
  | [] => [(k, v)]
  | e :: rest => if e.1 = k then (k, v) :: rest else e :: updateAssoc rest k v

/-- Remove a key from an association list of files. -/
def removeKey (l : List (FsPath × PdfDoc)) (k : FsPath) : List (FsPath × PdfDoc) :=
  match l with
  | [] => []
  | e :: rest => if e.1 = k then removeKey rest k else e :: removeKey rest k

/-- Number of entries of an association list carrying the given key. -/
def countKey (l : List (FsPath × PdfDoc)) (k : FsPath) : Nat :=
  (l.filter (fun e => decide (e.1 = k))).length

/-- The filesystem: the set of existing directories and the existing files
with their contents, both keyed by resolved absolute path. -/
structure Fs where
  dirs : List FsPath
  files : List (FsPath × PdfDoc)
deriving DecidableEq

/-- Whether a directory exists. -/
def Fs.hasDir (fs : Fs) (d : FsPath) : Bool := fs.dirs.contains d

/-- Insert a directory if absent. -/
def insertIfAbsent (l : List FsPath) (x : FsPath) : List FsPath :=
  if l.contains x then l else l ++ [x]

/-- All ancestors of a path, itself included (what `os.makedirs` creates). -/
def prefixesOf (d : FsPath) : List FsPath :=
  (List.range (d.length + 1)).map (fun i => d.take i)

/-- Model of `tempfile.TemporaryDirectory()` / `os.mkdir`: the directory
becomes present. -/
def Fs.mkdir (fs : Fs) (d : FsPath) : Fs :=
  { fs with dirs := insertIfAbsent fs.dirs d }

/-- Model of `os.makedirs(..., exist_ok=True)`: every missing ancestor is
created. -/
def Fs.mkdirs (fs : Fs) (d : FsPath) : Fs :=
  { fs with dirs := (prefixesOf d).foldl insertIfAbsent fs.dirs }

/-- Model of `open(path, "wb")` + write: fails (OSError) when the parent
directory does not exist, otherwise creates or overwrites the file. -/
def Fs.writeFile (fs : Fs) (p : FsPath) (doc : PdfDoc) : Option Fs :=
  if fs.hasDir p.dropLast then some { fs with files := updateAssoc fs.files p doc }
  else none

/-- Model of opening a file for reading. -/
def Fs.readFile (fs : Fs) (p : FsPath) : Option PdfDoc :=
  findVal fs.files p

/-- Model of `os.remove`: fails when the file is missing. -/
def Fs.removeFile (fs : Fs) (p : FsPath) : Option Fs :=
  match findVal fs.files p with
  | none => none
  | some _ => some { fs with files := removeKey fs.files p }

/-- Model of `os.rename` / `os.replace` on files (POSIX: an existing
destination is overwritten): fails when the source is missing or the
destination's parent directory does not exist. -/
def Fs.renameFile (fs : Fs) (src dst : FsPath) : Option Fs :=
  match findVal fs.files src with
  | none => none
  | some doc =>
    if fs.hasDir dst.dropLast then
      some { fs with files := updateAssoc (removeKey fs.files src) dst doc }
    else none

/-- Model of `os.listdir`: names of the entries (directories and files)
whose parent is the given directory. -/
def Fs.listdir (fs : Fs) (d : FsPath) : List String :=
  (fs.dirs.filterMap (fun q => if q.dropLast = d ∧ q ≠ [] then q.getLast? else none)) ++
    (fs.files.filterMap (fun e => if e.1.dropLast = d ∧ e.1 ≠ [] then e.1.getLast? else none))

/-- Model of `shutil.rmtree` (what `TemporaryDirectory.cleanup` runs): the
directory and everything below it disappear. -/
def Fs.rmtree (fs : Fs) (root : FsPath) : Fs :=
  { dirs := fs.dirs.filter (fun d => !(root.isPrefixOf d)),
    files := fs.files.filter (fun e => !(root.isPrefixOf e.1)) }

/-- Nothing of the filesystem lies at or below the given root. -/
def Fs.noneUnder (fs : Fs) (root : FsPath) : Bool :=
  fs.dirs.all (fun d => !(root.isPrefixOf d)) &&
    fs.files.all (fun e => !(root.isPrefixOf e.1))

/-! ### Errors, environment, results -/

/-- The structured content of the `detail` strings of the `HTTPException`s
the handler raises. -/
inductive ErrDetail where
  /-- Detail `f"Invalid compress method. Allowed values: {list(valid_compress)}"`. -/
  | invalidCompress (allowed : List String)
  /-- Detail `f"Invalid quality for Ghostscript. Allowed values: {list(valid_quality)}"`. -/
  | invalidQuality (allowed : List String)
  /-- Detail `"Only PDF files are allowed"`. -/
  | onlyPdfAllowed
  /-- Detail `"No valid PDF files found in the uploaded files."`. -/
  | noValidPdf
deriving DecidableEq

/-- A Python exception raised inside the handler's `try` block.  FastAPI's
`HTTPException` subclasses `Exception`, so it is one of these values and is
caught by the handler's `except Exception`. -/
inductive PyErr where
  | httpException (status : Nat) (detail : ErrDetail)
  | osError (msg : String)
deriving DecidableEq

/-- The error response the client sees. -/
inductive RespError where
  /-- Case of an `HTTPException` raised outside the `try` block: it surfaces with its
  own status and detail. -/
  | direct (status : Nat) (detail : ErrDetail)
  /-- Case of the `except Exception` block: it re-raises any exception as
  `HTTPException(500, f"An error occurred: {str(exc)}")`. -/
  | wrapped (exc : PyErr)
deriving DecidableEq

/-- The single background task this program schedules. -/
inductive BgTask where
  | cleanupWorkspace (w : FsPath)
deriving DecidableEq

/-- Run a background task on the filesystem (`TemporaryDirectory.cleanup`
removes the tree). -/
def runBgTask (t : BgTask) (fs : Fs) : Fs :=
  match t with
  | .cleanupWorkspace w => fs.rmtree w

/-- The `FileResponse` the handler returns on success. -/
structure FilePayload where
  path : FsPath
  filename : String
  mediaType : String
deriving DecidableEq

/-- Outcome of one request as it leaves the handler: either a
`FileResponse` with its scheduled background tasks, or an error response;
each carries the filesystem state at that moment. -/
inductive RequestResult where
  | success (resp : FilePayload) (bg : List BgTask) (fs : Fs)
  | failure (err : RespError) (fs : Fs)
deriving DecidableEq

/-- HTTP status the client receives. -/
def RequestResult.clientStatus : RequestResult → Nat
  | .success _ _ _ => 200
  | .failure (.direct s _) _ => s
  | .failure (.wrapped _) _ => 500

/-- The error response, when there is one. -/
def RequestResult.errOf : RequestResult → Option RespError
  | .success _ _ _ => none
  | .failure e _ => some e

/-- The document served to the client: `FileResponse` streams the file at
response time, before background tasks run. -/
def RequestResult.servedDoc : RequestResult → Option PdfDoc
  | .success resp _ fs => fs.readFile resp.path
  | .failure _ _ => none

/-- The filesystem once the request is fully over.  FastAPI runs the
scheduled background tasks after sending the response it returned; when the
handler raises, the error response it synthesizes carries no background
tasks, so none run. -/
def RequestResult.finalFs : RequestResult → Fs
  | .success _ bg fs => bg.foldl (fun f t => runBgTask t f) fs
  | .failure _ fs => fs

/-- Outcome of the `subprocess.run` of the external tool: exit with a code
(writing the output file on exit code 0), or failure to spawn at all
(`OSError`). -/
inductive GsOutcome where
  | exited (code : Nat) (out : PdfDoc)
  | spawnFail
deriving DecidableEq

/-- The execution-host environment: what `shutil.which` finds, and how the
spawned Ghostscript process behaves. -/
structure Env where
  which : String → Option String
  gs : GsOutcome

/-- Model of `shutil.which("gs") or shutil.which("gswin64c") or shutil.which("gswin32c")` (main.py line 124). -/
def whichGs (env : Env) : Option String :=
  match env.which "gs" with
  | some p => some p
  | none =>
    match env.which "gswin64c" with
    | some p => some p
    | none => env.which "gswin32c"

/-- Python truthiness of the optional `password` form field
(`None` and `""` are falsy). -/
def pyTruthy : Option String → Bool
  | some pw => !(pw = "")
  | none => false

/-! ### The translated source functions -/

/-- Source set `valid_compress = {"none", "builtin", "ghostscript"}` (main.py line 32). -/
def valid_compress : List String := ["none", "builtin", "ghostscript"]

/-- Source set `valid_quality = {"ebook", "printer", "prepress"}` (main.py line 36). -/
def valid_quality : List String := ["ebook", "printer", "prepress"]

/-- main.py lines 98-104: list the input directory, keep names whose
lowercase form ends in `.pdf`, join each onto the directory, sort. -/
def get_sorted_pdf_paths (fs : Fs) (input_dir : String) : List String :=
  sortLe strLe ((fs.listdir (resolvePath input_dir)).filterMap
    (fun filename =>
      if pyEndsWith (pyLower filename) ".pdf" then some (posixJoin input_dir filename)
      else none))

/-- The reads performed by `writer.append(path)` over the input list
(main.py lines 110-111): each file is opened (FileNotFoundError when
missing, `pypdf` refuses an encrypted input) and its pages are appended. -/
def appendAll (fs : Fs) : List String → Except PyErr (List PdfPage)
  | [] => .ok []
  | p :: rest =>
    match fs.readFile (resolvePath p) with
    | none => .error (.osError "No such file or directory")
    | some doc =>
      if doc.encryption.isSome then .error (.osError "File has not been decrypted")
      else
        match appendAll fs rest with
        | .ok pages => .ok (doc.pages ++ pages)
        | .error e => .error e

/-- main.py lines 107-119 (`merge_pdfs`): append every input's pages, then
optionally recompress each page's content stream, set the password when one
is given, create the output file's parent directories, write the output.
Errors carry the filesystem state at the moment of raising. -/
def merge_pdfs (flate : List Nat → List Nat) (fs : Fs) (input_paths : List String)
    (output_path : String) (compress_builtin : Bool) (password : Option String) :
    Except (PyErr × Fs) Fs :=
  match appendAll fs input_paths with
  | .error e => .error (e, fs)
  | .ok pages0 =>
    let pages1 := if compress_builtin then pages0.map (compressPage flate) else pages0
    let enc : Option String :=
      match password with
      | some pw => if pw = "" then none else some pw
      | none => none
    let fs1 := fs.mkdirs (resolvePath (posixDirname output_path))
    match fs1.writeFile (resolvePath output_path) { pages := pages1, encryption := enc } with
    | some fs2 => .ok fs2
    | none => .error (.osError "No such file or directory", fs1)

/-- main.py lines 122-146 (`compress_with_ghostscript`): probe for the tool
in fixed priority order; when absent return `False` with no other action;
otherwise run it — `subprocess.run(..., check=True)` raises
`CalledProcessError` on a nonzero exit (caught: return `False`) and
`OSError` on a spawn failure (NOT caught: it propagates); on exit 0 the
tool has written the output file and the function returns `True`. -/
def compress_with_ghostscript (env : Env) (fs : Fs) (input_pdf output_pdf : String)
    (quality : String) : Except PyErr (Bool × Fs) :=
  match whichGs env with
  | none => .ok (false, fs)
  | some _ =>
    match env.gs with
    | .exited 0 out =>
      match fs.writeFile (resolvePath output_pdf) out with
      | some fs1 => .ok (true, fs1)
      | none => .error (.osError ("No such file or directory: " ++ quality))
    | .exited (_ + 1) _ => .ok (false, fs)
    | .spawnFail => .error (.osError "spawn failure")

/-- main.py lines 149-157 (`encrypt_pdf`): read every page of the input
document (raising when it cannot be read or is itself encrypted), rebuild a
new document page-by-page, encrypt it with the password, write it out. -/
def encrypt_pdf (fs : Fs) (input_pdf output_pdf : String) (password : String) :
    Except PyErr Fs :=
  match fs.readFile (resolvePath input_pdf) with
  | none => .error (.osError "No such file or directory")
  | some doc =>
    if doc.encryption.isSome then .error (.osError "File has not been decrypted")
    else
      match fs.writeFile (resolvePath output_pdf)
          { pages := doc.pages, encryption := some password } with
      | some fs1 => .ok fs1
      | none => .error (.osError "No such file or directory")

/-- main.py lines 52-58: validate each upload's filename (non-empty, ends
in `.pdf` case-insensitively), then write its content at
`os.path.join(input_dir, file.filename)` — no sanitization of the
client-supplied name. -/
def stageFiles (input_dir : String) (fs : Fs) :
    List (String × PdfDoc) → Except (PyErr × Fs) Fs
  | [] => .ok fs
  | (name, doc) :: rest =>
    if name = "" ∨ ¬ pyEndsWith (pyLower name) ".pdf" then
      .error (.httpException 400 .onlyPdfAllowed, fs)
    else
      match fs.writeFile (resolvePath (posixJoin input_dir name)) doc with
      | some fs1 => stageFiles input_dir fs1 rest
      | none => .error (.osError "No such file or directory", fs)

/-- main.py lines 75-82: rename the merged file aside (to
`temp_merged = os.path.join(output_dir, "merged.tmp.pdf")`), run Ghostscript
into the canonical name, and on failure rename the original back. -/
def ghostscriptStage (env : Env) (fs : Fs) (output_dir merged_pdf_path quality : String) :
    Except (PyErr × Fs) Fs :=
  match fs.renameFile (resolvePath merged_pdf_path)
      (resolvePath (posixJoin output_dir "merged.tmp.pdf")) with
  | none => .error (.osError "No such file or directory", fs)
  | some fsR =>
    match compress_with_ghostscript env fsR (posixJoin output_dir "merged.tmp.pdf")
        merged_pdf_path quality with
    | .error e => .error (e, fsR)
    | .ok (true, fsG) =>
      match fsG.removeFile (resolvePath (posixJoin output_dir "merged.tmp.pdf")) with
      | some fs1 => .ok fs1
      | none => .error (.osError "No such file or directory", fsG)
    | .ok (false, fsG) =>
      match fsG.renameFile (resolvePath (posixJoin output_dir "merged.tmp.pdf"))
          (resolvePath merged_pdf_path) with
      | some fs1 => .ok fs1
      | none => .error (.osError "No such file or directory", fsG)

/-- main.py lines 84-88: encrypt the (possibly compressed) merged file into
a sibling (`temp_encrypted = os.path.join(output_dir, "merged.encrypted.pdf")`)
and move it over the canonical name (`os.replace`). -/
def encryptStage (fs : Fs) (output_dir merged_pdf_path password : String) :
    Except (PyErr × Fs) Fs :=
  match encrypt_pdf fs merged_pdf_path (posixJoin output_dir "merged.encrypted.pdf") password with
  | .error e => .error (e, fs)
  | .ok fsE =>
    match fsE.renameFile (resolvePath (posixJoin output_dir "merged.encrypted.pdf"))
        (resolvePath merged_pdf_path) with
    | some fs1 => .ok fs1
    | none => .error (.osError "No such file or directory", fsE)

/-- main.py lines 50-90: the body of the handler's `try` block. -/
def tryBody (env : Env) (flate : List Nat → List Nat) (input_dir output_dir : String)
    (files : List (String × PdfDoc)) (compress quality : String)
    (password : Option String) (fs : Fs) : Except (PyErr × Fs) (Fs × String) :=
  match stageFiles input_dir fs files with
  | .error ef => .error ef
  | .ok fs2 =>
    let pdf_paths := get_sorted_pdf_paths fs2 input_dir
    if pdf_paths = [] then .error (.httpException 400 .noValidPdf, fs2)
    else
      let merged_pdf_path := posixJoin output_dir "merged.pdf"
      let mergeRes :=
        if compress = "builtin" ∨ compress = "none" then
          merge_pdfs flate fs2 pdf_paths merged_pdf_path (compress = "builtin") password
        else
          merge_pdfs flate fs2 pdf_paths merged_pdf_path false none
      match mergeRes with
      | .error ef => .error ef
      | .ok fs3 =>
        match
          (if compress = "ghostscript" then
            ghostscriptStage env fs3 output_dir merged_pdf_path quality
          else .ok fs3) with
        | .error ef => .error ef
        | .ok fs4 =>
          match
            (if pyTruthy password ∧ compress = "ghostscript" then
              encryptStage fs4 output_dir merged_pdf_path (password.getD "")
            else .ok fs4) with
          | .error ef => .error ef
          | .ok fs5 => .ok (fs5, merged_pdf_path)

/-- Source local `temp_path = temp_dir.name` (main.py line 42), given the
component path of the temporary directory the OS allocated. -/
def tempPathOf (tempName : FsPath) : String := renderAbs tempName

/-- Source local `input_dir = os.path.join(temp_path, "input")` (main.py line 43). -/
def inputDirOf (tempName : FsPath) : String := posixJoin (tempPathOf tempName) "input"

/-- Source local `output_dir = os.path.join(temp_path, "output")` (main.py line 44). -/
def outputDirOf (tempName : FsPath) : String := posixJoin (tempPathOf tempName) "output"

/-- main.py lines 41-46: the filesystem after the temporary directory and
its `input`/`output` partitions are created. -/
def workspaceFs (fs0 : Fs) (tempName : FsPath) : Fs :=
  (((fs0.mkdir (resolvePath (tempPathOf tempName))).mkdirs
    (resolvePath (inputDirOf tempName))).mkdirs (resolvePath (outputDirOf tempName)))

/-- main.py lines 16-95 (`merge_pdf_files`): the request handler.
`tempName` is the component path of the unique temporary directory
`tempfile.TemporaryDirectory()` allocates for this request; `fs0` the
filesystem before the request.  Both enum validations run before the
workspace is created; the workspace's cleanup is added to the background
tasks right after creation; any exception escaping the `try` body triggers
an immediate cleanup and is re-raised as a 500. -/
def merge_pdf_files (env : Env) (flate : List Nat → List Nat) (tempName : FsPath)
    (fs0 : Fs) (files : List (String × PdfDoc)) (compress quality : String)
    (password : Option String) : RequestResult :=
  if ¬ valid_compress.contains compress then
    .failure (.direct 400 (.invalidCompress valid_compress)) fs0
  else if compress = "ghostscript" ∧ ¬ valid_quality.contains quality then
    .failure (.direct 400 (.invalidQuality valid_quality)) fs0
  else
    let temp_path := tempPathOf tempName
    let input_dir := inputDirOf tempName
    let output_dir := outputDirOf tempName
    let fs1 := workspaceFs fs0 tempName
    match tryBody env flate input_dir output_dir files compress quality password fs1 with
    | .ok (fs5, merged_pdf_path) =>
      .success
        { path := resolvePath merged_pdf_path, filename := "merged.pdf",
          mediaType := "application/pdf" }
        [BgTask.cleanupWorkspace (resolvePath temp_path)] fs5
    | .error (e, fsE) =>
      .failure (.wrapped e) (fsE.rmtree (resolvePath temp_path))

/-! ### Derived notions used to state the claims -/

/-- A path component that names an ordinary directory entry: non-empty, not
`.` or `..`, and free of the path separator. -/
def cleanComp (c : String) : Bool :=
  decide (c ≠ "" ∧ c ≠ "." ∧ c ≠ "..") && c.data.all (fun ch => !(ch = '/'))

/-- A resolved path all of whose components are ordinary entries. -/
def cleanPath (w : FsPath) : Bool := w.all cleanComp

/-- An ordinary uploaded filename that passes the handler's validation:
a single clean path component whose lowercase form ends in `.pdf`. -/
def goodName (n : String) : Bool :=
  cleanComp n && pyEndsWith (pyLower n) ".pdf"

/-- All uploads carry a good name and an unencrypted document. -/
def goodUploads (files : List (String × PdfDoc)) : Bool :=
  files.all (fun u => goodName u.1 && (u.2.encryption = none))

/-- The first upload carrying the given filename (association-list lookup). -/
def findUpload (n : String) : List (String × PdfDoc) → Option PdfDoc
  | [] => none
  | u :: rest => if u.1 = n then some u.2 else findUpload n rest

/-- The last upload carrying the given filename. -/
def lastUploadVal (n : String) : List (String × PdfDoc) → Option PdfDoc
  | [] => none
  | u :: rest =>
    match lastUploadVal n rest with
    | some v => some v
    | none => if u.1 = n then some u.2 else none

/-- The pages contributed by the upload of the given filename. -/
def uploadPages (files : List (String × PdfDoc)) (n : String) : List PdfPage :=
  match findUpload n files with
  | some d => d.pages
  | none => []

/-- The uploads' filenames in the order the merge processes them: sorted by
Python string `<`, i.e. simple lexicographic codepoint order. -/
def sortedNames (files : List (String × PdfDoc)) : List String :=
  sortLe strLe (files.map Prod.fst)

/-- The pages of the merged artifact: each input's pages in order, inputs
concatenated in lexicographic filename order. -/
def mergedPagesOf (files : List (String × PdfDoc)) : List PdfPage :=
  ((sortedNames files).map (uploadPages files)).flatten

/-- The encryption the merge applies for a given `password` form value
(Python truthiness: `None` and `""` mean no encryption). -/
def pwOpt : Option String → Option String
  | some pw => if pw = "" then none else some pw
  | none => none

/-- The artifact sitting at the canonical merged path after the
external-compression stage: the tool's output on a successful run,
otherwise the restored pre-compression document. -/
def gsOutDoc (env : Env) (a : PdfDoc) : PdfDoc :=
  match whichGs env, env.gs with
  | none, _ => a
  | some _, .exited 0 out => out
  | some _, .exited (_ + 1) _ => a
  | some _, .spawnFail => a

/-- The final artifact of the `ghostscript` branch: the post-compression
encryptor rebuilds the document page-by-page and applies the password
whenever one was supplied. -/
def gsFinalDoc (env : Env) (merged : PdfDoc) (password : Option String) : PdfDoc :=
  if pyTruthy password then ⟨(gsOutDoc env merged).pages, some (password.getD "")⟩
  else gsOutDoc env merged

/-- The filesystem state a request result carries. -/
def RequestResult.fsOf : RequestResult → Fs
  | .success _ _ fs => fs
  | .failure _ fs => fs

/-- The environment lets the request finish: either the tool is absent, or
the spawned process exits (successfully — having written an unencrypted
output file — or not); a spawn failure would abort the request. -/
def gsBenign (env : Env) : Prop :=
  match whichGs env, env.gs with
  | none, _ => True
  | some _, .exited 0 out => out.encryption = none
  | some _, .exited (_ + 1) _ => True
  | some _, .spawnFail => False

instance (env : Env) : Decidable (gsBenign env) := by
  unfold gsBenign
  rcases whichGs env with _ | g
  · exact inferInstanceAs (Decidable True)
  · rcases env.gs with ⟨code, out⟩ | _
    · rcases code with _ | c
      · exact inferInstanceAs (Decidable (out.encryption = none))
      · exact inferInstanceAs (Decidable True)
    · exact inferInstanceAs (Decidable False)

/-- The input-partition association list after staging all uploads. -/
def stagedFilesList (W : FsPath) (files : List (String × PdfDoc))
    (init : List (FsPath × PdfDoc)) : List (FsPath × PdfDoc) :=
  files.foldl (fun acc u => updateAssoc acc (W ++ ["input", u.1]) u.2) init

/-- The filesystem after the workspace is created and all uploads staged. -/
def stagedWorkspace (fs0 : Fs) (W : FsPath) (files : List (String × PdfDoc)) : Fs :=
  ⟨(workspaceFs fs0 W).dirs, fs0.files ++ files.map (fun u => (W ++ ["input", u.1], u.2))⟩

/-! ### Lemmas on strings and paths -/

lemma strMk_data (s : String) : String.mk s.data = s := rfl

lemma strExt {a b : String} (h : a.data = b.data) : a = b := by
  cases a
  cases b
  exact congrArg String.mk h

lemma cleanPath_cons {c : String} {l : List String} :
    cleanPath (c :: l) = (cleanComp c && cleanPath l) := rfl

lemma cleanComp_ne_empty {c : String} (h : cleanComp c = true) : c ≠ "" := by
  simp only [cleanComp, Bool.and_eq_true, decide_eq_true_eq] at h
  exact h.1.1

lemma cleanComp_not_dot {c : String} (h : cleanComp c = true) :
    ¬(c = "" ∨ c = ".") ∧ c ≠ ".." := by
  simp only [cleanComp, Bool.and_eq_true, decide_eq_true_eq] at h
  exact ⟨by rintro (h1 | h1) <;> [exact h.1.1 h1; exact h.1.2.1 h1], h.1.2.2⟩

lemma cleanComp_slashFree {c : String} (h : cleanComp c = true) :
    c.data.all (fun ch => !(ch = '/')) = true := by
  simp only [cleanComp, Bool.and_eq_true] at h
  exact h.2

lemma cleanComp_data_ne_nil {c : String} (h : cleanComp c = true) : c.data ≠ [] := by
  intro hd
  exact cleanComp_ne_empty h (strExt (by simpa using hd))

lemma splitOnSlash_ne_nil (l : List Char) : splitOnSlash l ≠ [] := by
  cases l with
  | nil => simp [splitOnSlash]
  | cons c cs =>
    simp only [splitOnSlash]
    split
    · simp
    · split <;> simp

lemma splitOnSlash_no_slash {l : List Char}
    (h : l.all (fun ch => !(ch = '/')) = true) : splitOnSlash l = [l] := by
  induction l with
  | nil => rfl
  | cons c cs ih =>
    simp only [List.all_cons, Bool.and_eq_true, Bool.not_eq_true',
      decide_eq_false_iff_not] at h
    rw [splitOnSlash, if_neg h.1, ih h.2]

lemma splitOnSlash_append {a : List Char} (b : List Char)
    (h : a.all (fun ch => !(ch = '/')) = true) :
    splitOnSlash (a ++ '/' :: b) = a :: splitOnSlash b := by
  induction a with
  | nil => simp [splitOnSlash]
  | cons c cs ih =>
    simp only [List.all_cons, Bool.and_eq_true, Bool.not_eq_true',
      decide_eq_false_iff_not] at h
    rw [List.cons_append, splitOnSlash, if_neg h.1, ih h.2]

lemma joinComps_cons₂ (c d : String) (rest : List String) :
    joinComps (c :: d :: rest) = c.data ++ '/' :: joinComps (d :: rest) := rfl

lemma splitOnSlash_joinComps {V : List String} (hne : V ≠ [])
    (h : cleanPath V = true) : splitOnSlash (joinComps V) = V.map String.data := by
  induction V with
  | nil => cases hne rfl
  | cons c rest ih =>
    cases rest with
    | nil =>
      rw [cleanPath_cons, Bool.and_eq_true] at h
      exact splitOnSlash_no_slash (cleanComp_slashFree h.1)
    | cons d rest2 =>
      rw [cleanPath_cons, Bool.and_eq_true] at h
      rw [joinComps_cons₂, splitOnSlash_append _ (cleanComp_slashFree h.1)]
      rw [ih (by simp) h.2]
      rfl

lemma resolveComps_clean : ∀ (V : List String) (acc : FsPath),
    cleanPath V = true → resolveComps acc V = acc ++ V := by
  intro V
  induction V with
  | nil => intro acc _; simp [resolveComps]
  | cons c cs ih =>
    intro acc h
    rw [cleanPath_cons, Bool.and_eq_true] at h
    obtain ⟨hdots, hcs⟩ := cleanComp_not_dot h.1
    rw [resolveComps, if_neg hdots, if_neg hcs, ih (acc ++ [c]) h.2, List.append_assoc]
    rfl

lemma map_mk_data (V : List String) :
    V.map ((fun l => String.mk l) ∘ String.data) = V := by
  induction V with
  | nil => rfl
  | cons a t iht =>
    rw [List.map_cons, iht]
    rfl

lemma resolvePath_renderAbs {V : FsPath} (h : cleanPath V = true) :
    resolvePath (renderAbs V) = V := by
  by_cases hne : V = []
  · subst hne; rfl
  · show resolveComps [] ((splitOnSlash ('/' :: joinComps V)).map (fun l => String.mk l)) = V
    rw [show splitOnSlash ('/' :: joinComps V) = [] :: splitOnSlash (joinComps V) from by
      simp [splitOnSlash]]
    rw [splitOnSlash_joinComps hne h, List.map_cons, List.map_map, map_mk_data]
    rw [show resolveComps [] (String.mk [] :: V) = resolveComps [] V from rfl]
    simpa using resolveComps_clean V [] h

lemma startsWithSlash_of_cleanComp {c : String} (h : cleanComp c = true) :
    startsWithSlash c = false := by
  have hall := cleanComp_slashFree h
  unfold startsWithSlash
  cases hc : c.data with
  | nil => rfl
  | cons x xs =>
    rw [hc] at hall
    simp only [List.all_cons, Bool.and_eq_true, Bool.not_eq_true',
      decide_eq_false_iff_not] at hall
    simp [hall.1]

lemma joinComps_append_single {V : FsPath} (c : String) (hne : V ≠ []) :
    joinComps (V ++ [c]) = joinComps V ++ '/' :: c.data := by
  induction V with
  | nil => cases hne rfl
  | cons a t ih =>
    cases t with
    | nil => rfl
    | cons b t2 =>
      rw [show ((a :: b :: t2) ++ [c]) = a :: ((b :: t2) ++ [c]) from rfl]
      rw [show ((b :: t2) ++ [c]) = b :: (t2 ++ [c]) from rfl]
      rw [joinComps_cons₂, show (b :: (t2 ++ [c])) = ((b :: t2) ++ [c]) from rfl]
      rw [ih (by simp), joinComps_cons₂]
      simp

lemma getLast?_joinComps {V : FsPath} (hne : V ≠ []) (h : cleanPath V = true) :
    ∃ ch, (joinComps V).getLast? = some ch ∧ ¬ch = '/' := by
  induction V with
  | nil => cases hne rfl
  | cons a t ih =>
    cases t with
    | nil =>
      rw [cleanPath_cons, Bool.and_eq_true] at h
      have hd := cleanComp_data_ne_nil h.1
      refine ⟨a.data.getLast hd, List.getLast?_eq_getLast _ hd, ?_⟩
      have hall := cleanComp_slashFree h.1
      rw [List.all_eq_true] at hall
      have := hall _ (List.getLast_mem hd)
      simpa using this
    | cons b t2 =>
      rw [cleanPath_cons, Bool.and_eq_true] at h
      obtain ⟨ch, hch, hns⟩ := ih (by simp) h.2
      refine ⟨ch, ?_, hns⟩
      rw [joinComps_cons₂, List.getLast?_append, List.getLast?_cons, hch]
      rfl

lemma endsWithSlashCh_renderAbs {V : FsPath} (hne : V ≠ []) (h : cleanPath V = true) :
    endsWithSlashCh (renderAbs V) = false := by
  obtain ⟨ch, hch, hns⟩ := getLast?_joinComps hne h
  unfold endsWithSlashCh
  rw [show (renderAbs V).data = '/' :: joinComps V from rfl]
  rw [List.getLast?_cons, hch]
  simp [hns]

lemma renderAbs_ne_empty (V : FsPath) : ¬(renderAbs V = "") := by
  intro hcon
  simpa [renderAbs] using congrArg String.data hcon

lemma posixJoin_renderAbs {V : FsPath} {c : String} (hV : cleanPath V = true)
    (hc : startsWithSlash c = false) :
    posixJoin (renderAbs V) c = renderAbs (V ++ [c]) := by
  by_cases hne : V = []
  · subst hne
    unfold posixJoin
    rw [if_neg (by simp [hc]), if_pos (show renderAbs ([] : FsPath) = "" ∨
      endsWithSlashCh (renderAbs ([] : FsPath)) = true from Or.inr rfl)]
    apply strExt
    rw [String.data_append]
    rfl
  · have h2 := endsWithSlashCh_renderAbs hne hV
    unfold posixJoin
    rw [if_neg (by simp [hc]), if_neg (by
      rintro (hx | hx)
      · exact renderAbs_ne_empty V hx
      · rw [h2] at hx; cases hx)]
    apply strExt
    rw [String.data_append, String.data_append]
    rw [show (renderAbs (V ++ [c])).data = '/' :: joinComps (V ++ [c]) from rfl]
    rw [joinComps_append_single c hne]
    rw [show (renderAbs V).data = '/' :: joinComps V from rfl]
    simp

lemma cleanPath_append_single {V : FsPath} {c : String} (hV : cleanPath V = true)
    (hc : cleanComp c = true) : cleanPath (V ++ [c]) = true := by
  simp only [cleanPath, List.all_append, Bool.and_eq_true]
  exact ⟨hV, by simp [hc]⟩

lemma resolve_join_clean {V : FsPath} {n : String} (hV : cleanPath V = true)
    (hn : cleanComp n = true) : resolvePath (posixJoin (renderAbs V) n) = V ++ [n] := by
  rw [posixJoin_renderAbs hV (startsWithSlash_of_cleanComp hn)]
  exact resolvePath_renderAbs (cleanPath_append_single hV hn)

lemma inputDir_eq {W : FsPath} (hW : cleanPath W = true) :
    inputDirOf W = renderAbs (W ++ ["input"]) :=
  posixJoin_renderAbs hW rfl

lemma outputDir_eq {W : FsPath} (hW : cleanPath W = true) :
    outputDirOf W = renderAbs (W ++ ["output"]) :=
  posixJoin_renderAbs hW rfl

lemma cleanPath_input {W : FsPath} (hW : cleanPath W = true) :
    cleanPath (W ++ ["input"]) = true :=
  cleanPath_append_single hW rfl

lemma cleanPath_output {W : FsPath} (hW : cleanPath W = true) :
    cleanPath (W ++ ["output"]) = true :=
  cleanPath_append_single hW rfl

lemma resolve_inputDir {W : FsPath} (hW : cleanPath W = true) :
    resolvePath (inputDirOf W) = W ++ ["input"] := by
  rw [inputDir_eq hW]
  exact resolvePath_renderAbs (cleanPath_input hW)

lemma resolve_outputDir {W : FsPath} (hW : cleanPath W = true) :
    resolvePath (outputDirOf W) = W ++ ["output"] := by
  rw [outputDir_eq hW]
  exact resolvePath_renderAbs (cleanPath_output hW)

lemma resolve_tempPath {W : FsPath} (hW : cleanPath W = true) :
    resolvePath (tempPathOf W) = W :=
  resolvePath_renderAbs hW

lemma resolve_input_name {W : FsPath} {n : String} (hW : cleanPath W = true)
    (hn : cleanComp n = true) :
    resolvePath (posixJoin (inputDirOf W) n) = W ++ ["input", n] := by
  rw [inputDir_eq hW, resolve_join_clean (cleanPath_input hW) hn]
  simp

lemma resolve_output_name {W : FsPath} {n : String} (hW : cleanPath W = true)
    (hn : cleanComp n = true) :
    resolvePath (posixJoin (outputDirOf W) n) = W ++ ["output", n] := by
  rw [outputDir_eq hW, resolve_join_clean (cleanPath_output hW) hn]
  simp

/-! ### Lemmas on the model of `sorted` -/

lemma insertLe_perm {α : Type} (le : α → α → Bool) (x : α) (l : List α) :
    List.Perm (insertLe le x l) (x :: l) := by
  induction l with
  | nil => exact List.Perm.refl _
  | cons y ys ih =>
    rw [insertLe]
    by_cases h : le x y = true
    · rw [if_pos h]
    · rw [if_neg h]
      exact (List.Perm.cons y ih).trans (List.Perm.swap x y ys)

lemma sortLe_perm {α : Type} (le : α → α → Bool) (l : List α) :
    List.Perm (sortLe le l) l := by
  induction l with
  | nil => exact List.Perm.refl _
  | cons x xs ih =>
    exact (insertLe_perm le x (sortLe le xs)).trans (List.Perm.cons x ih)

lemma mem_sortLe {α : Type} (le : α → α → Bool) {a : α} {l : List α} :
    a ∈ sortLe le l ↔ a ∈ l :=
  (sortLe_perm le l).mem_iff

lemma insertLe_map {α β : Type} (le1 : α → α → Bool) (le2 : β → β → Bool) (f : α → β)
    (x : α) (l : List α) (hcomp : ∀ b ∈ l, le2 (f x) (f b) = le1 x b) :
    insertLe le2 (f x) (l.map f) = (insertLe le1 x l).map f := by
  induction l with
  | nil => rfl
  | cons y ys ih =>
    rw [List.map_cons, insertLe, insertLe, hcomp y (by simp)]
    by_cases h : le1 x y = true
    · rw [if_pos h, if_pos h]
      simp
    · rw [if_neg h, if_neg h, List.map_cons, ih (fun b hb => hcomp b (by simp [hb]))]

lemma sortLe_map {α β : Type} (le1 : α → α → Bool) (le2 : β → β → Bool) (f : α → β)
    (l : List α) (hcomp : ∀ a ∈ l, ∀ b ∈ l, le2 (f a) (f b) = le1 a b) :
    sortLe le2 (l.map f) = (sortLe le1 l).map f := by
  induction l with
  | nil => rfl
  | cons x xs ih =>
    have hx := ih (fun a ha b hb => hcomp a (by simp [ha]) b (by simp [hb]))
    show insertLe le2 (f x) (sortLe le2 (xs.map f)) = (insertLe le1 x (sortLe le1 xs)).map f
    rw [hx]
    exact insertLe_map le1 le2 f x (sortLe le1 xs) (fun b hb =>
      hcomp x (by simp) b (by simp [(mem_sortLe le1).1 hb]))

lemma codepointLt_append (p a b : List Char) :
    codepointLt (p ++ a) (p ++ b) = codepointLt a b := by
  induction p with
  | nil => rfl
  | cons c cs ih =>
    rw [List.cons_append, List.cons_append, codepointLt]
    simp [Nat.lt_irrefl, ih]

lemma strLe_join_cancel {V : FsPath} (hne : V ≠ []) (hV : cleanPath V = true)
    {a b : String} (ha : startsWithSlash a = false) (hb : startsWithSlash b = false) :
    strLe (posixJoin (renderAbs V) a) (posixJoin (renderAbs V) b) = strLe a b := by
  have hj : ∀ x : String, startsWithSlash x = false →
      (posixJoin (renderAbs V) x).data = ((renderAbs V).data ++ ['/']) ++ x.data := by
    intro x hx
    unfold posixJoin
    rw [if_neg (by simp [hx]), if_neg (by
      rintro (h1 | h1)
      · exact renderAbs_ne_empty V h1
      · rw [endsWithSlashCh_renderAbs hne hV] at h1; cases h1)]
    rw [String.data_append, String.data_append]
  unfold strLe strLt
  rw [hj a ha, hj b hb, codepointLt_append]

/-! ### Lemmas on the association list of files -/

lemma findVal_updateAssoc_self (l : List (FsPath × PdfDoc)) (k : FsPath) (v : PdfDoc) :
    findVal (updateAssoc l k v) k = some v := by
  induction l with
  | nil => rw [updateAssoc, findVal, if_pos rfl]
  | cons e rest ih =>
    rw [updateAssoc]
    by_cases h : e.1 = k
    · rw [if_pos h, findVal, if_pos rfl]
    · rw [if_neg h, findVal, if_neg h, ih]

lemma findVal_updateAssoc_ne (l : List (FsPath × PdfDoc)) (k : FsPath) (v : PdfDoc)
    (k' : FsPath) (h : ¬k' = k) : findVal (updateAssoc l k v) k' = findVal l k' := by
  induction l with
  | nil =>
    simp only [updateAssoc, findVal]
    rw [if_neg (Ne.symm h)]
  | cons e rest ih =>
    simp only [updateAssoc]
    by_cases he : e.1 = k
    · rw [if_pos he]
      simp only [findVal]
      rw [if_neg (Ne.symm h), if_neg (by rw [he]; exact Ne.symm h)]
    · rw [if_neg he]
      simp only [findVal]
      by_cases he2 : e.1 = k'
      · rw [if_pos he2, if_pos he2]
      · rw [if_neg he2, if_neg he2, ih]

lemma findVal_removeKey_self (l : List (FsPath × PdfDoc)) (k : FsPath) :
    findVal (removeKey l k) k = none := by
  induction l with
  | nil => rfl
  | cons e rest ih =>
    rw [removeKey]
    by_cases h : e.1 = k
    · rw [if_pos h]; exact ih
    · rw [if_neg h, findVal, if_neg h]; exact ih

lemma findVal_removeKey_ne (l : List (FsPath × PdfDoc)) (k k' : FsPath) (h : ¬k' = k) :
    findVal (removeKey l k) k' = findVal l k' := by
  induction l with
  | nil => rfl
  | cons e rest ih =>
    rw [removeKey]
    by_cases he : e.1 = k
    · rw [if_pos he, ih]
      simp only [findVal]
      rw [if_neg (by rw [he]; exact Ne.symm h)]
    · rw [if_neg he]
      simp only [findVal]
      by_cases he2 : e.1 = k'
      · rw [if_pos he2, if_pos he2]
      · rw [if_neg he2, if_neg he2, ih]

lemma findVal_append (l1 l2 : List (FsPath × PdfDoc)) (k : FsPath) :
    findVal (l1 ++ l2) k = (findVal l1 k).or (findVal l2 k) := by
  induction l1 with
  | nil => rfl
  | cons e rest ih =>
    rw [List.cons_append, findVal, findVal]
    by_cases h : e.1 = k
    · rw [if_pos h, if_pos h]; rfl
    · rw [if_neg h, if_neg h, ih]

lemma countKey_cons (e : FsPath × PdfDoc) (l : List (FsPath × PdfDoc)) (k : FsPath) :
    countKey (e :: l) k = if e.1 = k then countKey l k + 1 else countKey l k := by
  by_cases h : e.1 = k
  · simp [countKey, List.filter_cons, h]
  · simp [countKey, List.filter_cons, h]

lemma countKey_updateAssoc_self (l : List (FsPath × PdfDoc)) (k : FsPath) (v : PdfDoc) :
    countKey (updateAssoc l k v) k = max (countKey l k) 1 := by
  induction l with
  | nil => simp [updateAssoc, countKey, List.filter_cons]
  | cons e rest ih =>
    rw [updateAssoc]
    by_cases h : e.1 = k
    · rw [if_pos h, countKey_cons, if_pos rfl, countKey_cons, if_pos h]
      omega
    · rw [if_neg h, countKey_cons, if_neg h, countKey_cons, if_neg h, ih]

lemma countKey_updateAssoc_ne (l : List (FsPath × PdfDoc)) (k : FsPath) (v : PdfDoc)
    (k' : FsPath) (h : ¬k' = k) : countKey (updateAssoc l k v) k' = countKey l k' := by
  induction l with
  | nil => simp [updateAssoc, countKey, List.filter_cons, Ne.symm h]
  | cons e rest ih =>
    rw [updateAssoc]
    by_cases he : e.1 = k
    · rw [if_pos he, countKey_cons, if_neg (Ne.symm h), countKey_cons,
        if_neg (by rw [he]; exact Ne.symm h)]
    · rw [if_neg he, countKey_cons, countKey_cons, ih]

lemma countKey_append (l1 l2 : List (FsPath × PdfDoc)) (k : FsPath) :
    countKey (l1 ++ l2) k = countKey l1 k + countKey l2 k := by
  simp [countKey, List.filter_append]

lemma updateAssoc_of_absent (l : List (FsPath × PdfDoc)) (k : FsPath) (v : PdfDoc)
    (h : countKey l k = 0) : updateAssoc l k v = l ++ [(k, v)] := by
  induction l with
  | nil => rfl
  | cons e rest ih =>
    rw [countKey_cons] at h
    by_cases he : e.1 = k
    · rw [if_pos he] at h
      omega
    · rw [if_neg he] at h
      rw [updateAssoc, if_neg he, ih h, List.cons_append]

lemma findVal_eq_none_of_countKey_zero (l : List (FsPath × PdfDoc)) (k : FsPath)
    (h : countKey l k = 0) : findVal l k = none := by
  induction l with
  | nil => rfl
  | cons e rest ih =>
    rw [countKey_cons] at h
    by_cases he : e.1 = k
    · rw [if_pos he] at h
      omega
    · rw [if_neg he] at h
      rw [findVal, if_neg he, ih h]

/-! ### Lemmas on staging -/

lemma goodName_cleanComp {n : String} (h : goodName n = true) : cleanComp n = true := by
  simp only [goodName, Bool.and_eq_true] at h
  exact h.1

lemma goodName_pdf {n : String} (h : goodName n = true) :
    pyEndsWith (pyLower n) ".pdf" = true := by
  simp only [goodName, Bool.and_eq_true] at h
  exact h.2

lemma goodName_valid {n : String} (h : goodName n = true) :
    ¬(n = "" ∨ ¬pyEndsWith (pyLower n) ".pdf" = true) := by
  rintro (h1 | h1)
  · exact cleanComp_ne_empty (goodName_cleanComp h) h1
  · exact h1 (goodName_pdf h)

lemma writeFile_child {fs : Fs} {dpath : FsPath} {name : String} {doc : PdfDoc}
    (hdir : fs.hasDir dpath = true) :
    fs.writeFile (dpath ++ [name]) doc =
      some ⟨fs.dirs, updateAssoc fs.files (dpath ++ [name]) doc⟩ := by
  unfold Fs.writeFile
  rw [List.dropLast_concat, if_pos hdir]

lemma input_key_split (W : FsPath) (n : String) :
    W ++ ["input", n] = (W ++ ["input"]) ++ [n] := by
  simp

lemma output_key_split (W : FsPath) (n : String) :
    W ++ ["output", n] = (W ++ ["output"]) ++ [n] := by
  simp

lemma inputKey_inj {W : FsPath} {a b : String}
    (h : W ++ ["input", a] = W ++ ["input", b]) : a = b := by
  have := (List.append_right_inj W).1 h
  simpa using this

lemma stageFiles_ok {W : FsPath} (hW : cleanPath W = true) :
    ∀ (files : List (String × PdfDoc)) (fs : Fs),
    files.all (fun u => goodName u.1) = true →
    fs.hasDir (W ++ ["input"]) = true →
    stageFiles (inputDirOf W) fs files =
      .ok ⟨fs.dirs, stagedFilesList W files fs.files⟩ := by
  intro files
  induction files with
  | nil =>
    intro fs _ _
    rfl
  | cons u rest ih =>
    intro fs hall hdir
    rw [List.all_cons, Bool.and_eq_true] at hall
    obtain ⟨hu, hrest⟩ := hall
    obtain ⟨name, doc⟩ := u
    rw [stageFiles, if_neg (goodName_valid hu),
      resolve_input_name hW (goodName_cleanComp hu), input_key_split,
      writeFile_child hdir]
    have hres := ih ⟨fs.dirs, updateAssoc fs.files ((W ++ ["input"]) ++ [name]) doc⟩ hrest hdir
    simpa [stagedFilesList] using hres

/-! ### Lemmas on the workspace filesystem -/

lemma workspaceFs_files (fs0 : Fs) (W : FsPath) :
    (workspaceFs fs0 W).files = fs0.files := rfl

lemma mem_insertIfAbsent {l : List FsPath} {x y : FsPath}
    (h : y ∈ insertIfAbsent l x) : y ∈ l ∨ y = x := by
  unfold insertIfAbsent at h
  by_cases hc : l.contains x = true
  · rw [if_pos hc] at h
    exact Or.inl h
  · rw [if_neg hc] at h
    rcases List.mem_append.1 h with h1 | h1
    · exact Or.inl h1
    · exact Or.inr (by simpa using h1)

lemma mem_foldl_insertIfAbsent : ∀ {xs : List FsPath} {l : List FsPath} {y : FsPath},
    y ∈ xs.foldl insertIfAbsent l → y ∈ l ∨ y ∈ xs := by
  intro xs
  induction xs with
  | nil =>
    intro l y h
    exact Or.inl h
  | cons x rest ih =>
    intro l y h
    rcases ih h with h1 | h1
    · rcases mem_insertIfAbsent h1 with h2 | h2
      · exact Or.inl h2
      · exact Or.inr (by simp [h2])
    · exact Or.inr (by simp [h1])

lemma length_of_mem_prefixesOf {t q : FsPath} (h : q ∈ prefixesOf t) :
    q.length ≤ t.length := by
  simp only [prefixesOf, List.mem_map, List.mem_range] at h
  obtain ⟨i, _, rfl⟩ := h
  rw [List.length_take]
  exact Nat.min_le_right i t.length

lemma mem_workspaceFs_dirs {fs0 : Fs} {W : FsPath} (hW : cleanPath W = true) {q : FsPath}
    (h : q ∈ (workspaceFs fs0 W).dirs) : q ∈ fs0.dirs ∨ q.length ≤ W.length + 1 := by
  simp only [workspaceFs, Fs.mkdirs, Fs.mkdir] at h
  rw [resolve_tempPath hW, resolve_inputDir hW, resolve_outputDir hW] at h
  rcases mem_foldl_insertIfAbsent h with h1 | h1
  · rcases mem_foldl_insertIfAbsent h1 with h2 | h2
    · rcases mem_insertIfAbsent h2 with h3 | h3
      · exact Or.inl h3
      · right
        rw [h3]
        omega
    · right
      have := length_of_mem_prefixesOf h2
      simp only [List.length_append, List.length_cons, List.length_nil] at this
      omega
  · right
    have := length_of_mem_prefixesOf h1
    simp only [List.length_append, List.length_cons, List.length_nil] at this
    omega

lemma listdir_files_only (fs : Fs) (d : FsPath)
    (hdirs : ∀ q ∈ fs.dirs, ¬(q.dropLast = d ∧ q ≠ [])) :
    fs.listdir d = fs.files.filterMap
      (fun e => if e.1.dropLast = d ∧ e.1 ≠ [] then e.1.getLast? else none) := by
  unfold Fs.listdir
  rw [List.filterMap_eq_nil_iff.2 (fun q hq => by rw [if_neg (hdirs q hq)]), List.nil_append]

lemma noneUnder_files {fs : Fs} {W : FsPath} (h : Fs.noneUnder fs W = true) :
    ∀ e ∈ fs.files, ¬ W <+: e.1 := by
  unfold Fs.noneUnder at h
  rw [Bool.and_eq_true] at h
  intro e he
  have h2 := List.all_eq_true.1 h.2 e he
  simp only [Bool.not_eq_true'] at h2
  rw [← List.isPrefixOf_iff_prefix]
  simp [h2]

lemma noneUnder_dirs {fs : Fs} {W : FsPath} (h : Fs.noneUnder fs W = true) :
    ∀ q ∈ fs.dirs, ¬ W <+: q := by
  unfold Fs.noneUnder at h
  rw [Bool.and_eq_true] at h
  intro q hq
  have h2 := List.all_eq_true.1 h.1 q hq
  simp only [Bool.not_eq_true'] at h2
  rw [← List.isPrefixOf_iff_prefix]
  simp [h2]

lemma countKey_zero_of_noneUnder {fs0 : Fs} {W : FsPath}
    (hfresh : Fs.noneUnder fs0 W = true) (k : FsPath) (hk : W <+: k) :
    countKey fs0.files k = 0 := by
  unfold countKey
  rw [List.length_eq_zero, List.filter_eq_nil_iff]
  intro e he
  simp only [decide_eq_true_eq]
  intro hek
  exact noneUnder_files hfresh e he (hek ▸ hk)

lemma stagedFilesList_append {W : FsPath} :
    ∀ (files : List (String × PdfDoc)) (init : List (FsPath × PdfDoc)),
    (∀ u ∈ files, countKey init (W ++ ["input", u.1]) = 0) →
    (files.map Prod.fst).Nodup →
    stagedFilesList W files init =
      init ++ files.map (fun u => (W ++ ["input", u.1], u.2)) := by
  intro files
  induction files with
  | nil =>
    intro init _ _
    simp [stagedFilesList]
  | cons u rest ih =>
    intro init hz hnodup
    obtain ⟨name, doc⟩ := u
    rw [List.map_cons, List.nodup_cons] at hnodup
    rw [show stagedFilesList W ((name, doc) :: rest) init
        = stagedFilesList W rest (updateAssoc init (W ++ ["input", name]) doc) from rfl]
    rw [updateAssoc_of_absent _ _ _ (hz (name, doc) (by simp))]
    rw [ih (init ++ [(W ++ ["input", name], doc)]) ?_ hnodup.2]
    · simp
    · intro v hv
      rw [countKey_append, hz v (by simp [hv]), countKey_cons]
      rw [if_neg ?_]
      · rfl
      · intro hk
        have hveq := inputKey_inj hk
        have hmem : name ∈ rest.map Prod.fst := by
          rw [hveq]
          exact List.mem_map_of_mem Prod.fst hv
        exact hnodup.1 hmem

lemma staged_listdir {W : FsPath} {fs0 : Fs} (hW : cleanPath W = true)
    (hfresh : Fs.noneUnder fs0 W = true) (files : List (String × PdfDoc)) :
    Fs.listdir ⟨(workspaceFs fs0 W).dirs,
        fs0.files ++ files.map (fun u => (W ++ ["input", u.1], u.2))⟩ (W ++ ["input"])
      = files.map Prod.fst := by
  rw [listdir_files_only]
  · rw [List.filterMap_append]
    rw [show (fs0.files.filterMap fun e =>
        if e.1.dropLast = W ++ ["input"] ∧ e.1 ≠ [] then e.1.getLast? else none) = []
      from List.filterMap_eq_nil_iff.2 ?_]
    · rw [List.nil_append, List.filterMap_map]
      rw [List.filterMap_congr (g := some ∘ Prod.fst) ?_, List.filterMap_eq_map]
      intro u _
      show (if (W ++ ["input", u.1]).dropLast = W ++ ["input"] ∧ ¬(W ++ ["input", u.1]) = []
        then (W ++ ["input", u.1]).getLast? else none) = some u.1
      rw [input_key_split, List.dropLast_concat, List.getLast?_concat]
      rw [if_pos ⟨rfl, by simp⟩]
    · intro e he
      rw [if_neg]
      rintro ⟨hd, hne⟩
      have hun : W <+: e.1 := by
        refine ⟨["input"] ++ [e.1.getLast hne], ?_⟩
        rw [← List.append_assoc, ← hd]
        exact List.dropLast_concat_getLast hne
      exact noneUnder_files hfresh e he hun
  · intro q hq
    rintro ⟨hd, hne⟩
    rcases mem_workspaceFs_dirs hW hq with h1 | h1
    · have hun : W <+: q := by
        refine ⟨["input"] ++ [q.getLast hne], ?_⟩
        rw [← List.append_assoc, ← hd]
        exact List.dropLast_concat_getLast hne
      exact noneUnder_dirs hfresh q h1 hun
    · have hq2 := List.dropLast_concat_getLast hne
      rw [hd] at hq2
      have hlen : q.length = W.length + 2 := by
        rw [← hq2]
        simp
      omega

/-! ### The ordering resolver on a staged workspace -/

lemma contains_mem {α : Type} [BEq α] [LawfulBEq α] {l : List α} {x : α} :
    l.contains x = true ↔ x ∈ l := by
  rw [show l.contains x = l.elem x from rfl]
  exact List.elem_iff

lemma mem_foldl_insertIfAbsent_init {xs l : List FsPath} {y : FsPath} (h : y ∈ l) :
    y ∈ xs.foldl insertIfAbsent l := by
  induction xs generalizing l with
  | nil => exact h
  | cons x rest ih =>
    rw [List.foldl_cons]
    apply ih
    unfold insertIfAbsent
    by_cases hc : l.contains x = true
    · rw [if_pos hc]
      exact h
    · rw [if_neg hc]
      exact List.mem_append.2 (Or.inl h)

lemma mem_foldl_insertIfAbsent_list {xs l : List FsPath} {y : FsPath} (h : y ∈ xs) :
    y ∈ xs.foldl insertIfAbsent l := by
  induction xs generalizing l with
  | nil => cases h
  | cons x rest ih =>
    rw [List.foldl_cons]
    rcases List.mem_cons.1 h with h1 | h1
    · subst h1
      apply mem_foldl_insertIfAbsent_init
      unfold insertIfAbsent
      by_cases hc : l.contains y = true
      · rw [if_pos hc]
        exact contains_mem.1 hc
      · rw [if_neg hc]
        simp
    · exact ih h1

lemma hasDir_mkdirs_mono {fs : Fs} {x d : FsPath} (h : fs.hasDir d = true) :
    (fs.mkdirs x).hasDir d = true := by
  unfold Fs.hasDir at h ⊢
  unfold Fs.mkdirs
  rw [contains_mem] at h
  rw [contains_mem]
  exact mem_foldl_insertIfAbsent_init h

lemma mkdirs_files (fs : Fs) (x : FsPath) : (fs.mkdirs x).files = fs.files := rfl

lemma get_sorted_eq {W : FsPath} {fs0 : Fs} (hW : cleanPath W = true)
    (hfresh : Fs.noneUnder fs0 W = true) (files : List (String × PdfDoc))
    (hnames : files.all (fun u => goodName u.1) = true) :
    get_sorted_pdf_paths ⟨(workspaceFs fs0 W).dirs,
        fs0.files ++ files.map (fun u => (W ++ ["input", u.1], u.2))⟩ (inputDirOf W)
      = (sortLe strLe (files.map Prod.fst)).map (fun n => posixJoin (inputDirOf W) n) := by
  have hgood : ∀ n ∈ files.map Prod.fst, goodName n = true := by
    intro n hn
    obtain ⟨u, hu, rfl⟩ := List.mem_map.1 hn
    exact List.all_eq_true.1 hnames u hu
  unfold get_sorted_pdf_paths
  rw [resolve_inputDir hW, staged_listdir hW hfresh files]
  rw [List.filterMap_congr (g := some ∘ (fun n => posixJoin (inputDirOf W) n))
    (fun n hn => by rw [if_pos (goodName_pdf (hgood n hn))]; rfl)]
  rw [List.filterMap_eq_map]
  rw [sortLe_map strLe strLe (fun n => posixJoin (inputDirOf W) n) (files.map Prod.fst)
    (fun a ha b hb => by
      rw [inputDir_eq hW]
      exact strLe_join_cancel (by simp) (cleanPath_input hW)
        (startsWithSlash_of_cleanComp (goodName_cleanComp (hgood a ha)))
        (startsWithSlash_of_cleanComp (goodName_cleanComp (hgood b hb))))]

/-! ### The merge engine on a staged workspace -/

lemma appendAll_ok {W : FsPath} {fsx : Fs} (hW : cleanPath W = true)
    (docFor : String → PdfDoc) :
    ∀ (ns : List String), ns.all cleanComp = true →
    (∀ n ∈ ns, fsx.readFile (W ++ ["input", n]) = some (docFor n) ∧
      (docFor n).encryption = none) →
    appendAll fsx (ns.map (fun n => posixJoin (inputDirOf W) n)) =
      .ok ((ns.map (fun n => (docFor n).pages)).flatten) := by
  intro ns
  induction ns with
  | nil =>
    intro _ _
    rfl
  | cons n rest ih =>
    intro hns hread
    rw [List.all_cons, Bool.and_eq_true] at hns
    have h1 := (hread n (by simp)).1
    have h2 := (hread n (by simp)).2
    have ihr := ih hns.2 (fun m hm => hread m (by simp [hm]))
    rw [List.map_cons, appendAll, resolve_input_name hW hns.1, h1, ihr]
    simp [h2]

lemma merge_pdfs_ok {fsx : Fs} {input_paths : List String} {pages0 : List PdfPage}
    {W : FsPath} (hW : cleanPath W = true)
    (happend : appendAll fsx input_paths = Except.ok pages0)
    (hdir : fsx.hasDir (W ++ ["output"]) = true)
    (flate : List Nat → List Nat) (b : Bool) (pwd : Option String) :
    ∃ fsOut, merge_pdfs flate fsx input_paths (posixJoin (outputDirOf W) "merged.pdf") b pwd
        = .ok fsOut ∧
      fsOut.files = updateAssoc fsx.files (W ++ ["output", "merged.pdf"])
        ⟨(if b then pages0.map (compressPage flate) else pages0), pwOpt pwd⟩ ∧
      (∀ d, fsx.hasDir d = true → fsOut.hasDir d = true) := by
  have hkey : resolvePath (posixJoin (outputDirOf W) "merged.pdf")
      = W ++ ["output", "merged.pdf"] :=
    resolve_output_name hW (by decide)
  have hpw : (match pwd with
      | some pw => if pw = "" then none else some pw
      | none => (none : Option String)) = pwOpt pwd := rfl
  unfold merge_pdfs
  generalize resolvePath (posixDirname (posixJoin (outputDirOf W) "merged.pdf")) = R
  simp only [happend, hpw, hkey]
  have hdir1 : (fsx.mkdirs R).hasDir (W ++ ["output"]) = true := hasDir_mkdirs_mono hdir
  refine ⟨⟨(fsx.mkdirs R).dirs, updateAssoc fsx.files (W ++ ["output", "merged.pdf"])
      ⟨(if b then pages0.map (compressPage flate) else pages0), pwOpt pwd⟩⟩, ?_, rfl,
    fun d hd => hasDir_mkdirs_mono hd⟩
  rw [output_key_split, writeFile_child hdir1]
  rfl

/-! ### Reading staged files back -/

lemma findVal_staged_map {W : FsPath} :
    ∀ (files : List (String × PdfDoc)) (n : String),
    findVal (files.map (fun u => (W ++ ["input", u.1], u.2))) (W ++ ["input", n]) =
      findUpload n files := by
  intro files n
  induction files with
  | nil => rfl
  | cons u rest ih =>
    rw [List.map_cons, findVal, findUpload]
    by_cases h : u.1 = n
    · rw [if_pos (by rw [h]), if_pos h]
    · rw [if_neg (fun hk => h (inputKey_inj hk)), if_neg h, ih]

lemma readFile_staged {W : FsPath} {fs0 : Fs} (hfresh : Fs.noneUnder fs0 W = true)
    (dirs1 : List FsPath) (files : List (String × PdfDoc)) (n : String) :
    Fs.readFile ⟨dirs1, fs0.files ++ files.map (fun u => (W ++ ["input", u.1], u.2))⟩
        (W ++ ["input", n]) = findUpload n files := by
  unfold Fs.readFile
  rw [show (⟨dirs1, fs0.files ++ files.map (fun u => (W ++ ["input", u.1], u.2))⟩ : Fs).files
    = fs0.files ++ files.map (fun u => (W ++ ["input", u.1], u.2)) from rfl]
  rw [findVal_append,
    findVal_eq_none_of_countKey_zero _ _
      (countKey_zero_of_noneUnder hfresh _ ⟨["input", n], rfl⟩),
    Option.none_or, findVal_staged_map]

lemma findUpload_some_of_mem {files : List (String × PdfDoc)} {n : String}
    (h : n ∈ files.map Prod.fst) : ∃ d, findUpload n files = some d := by
  induction files with
  | nil => cases h
  | cons u rest ih =>
    rw [findUpload]
    by_cases he : u.1 = n
    · exact ⟨u.2, by rw [if_pos he]⟩
    · rw [if_neg he]
      rw [List.map_cons, List.mem_cons] at h
      rcases h with h1 | h1
      · exact absurd h1.symm he
      · exact ih h1

lemma findUpload_mem {files : List (String × PdfDoc)} {n : String} {d : PdfDoc}
    (h : findUpload n files = some d) : ∃ u ∈ files, u.1 = n ∧ u.2 = d := by
  induction files with
  | nil => cases h
  | cons u rest ih =>
    rw [findUpload] at h
    by_cases he : u.1 = n
    · rw [if_pos he] at h
      exact ⟨u, by simp, he, Option.some.inj h⟩
    · rw [if_neg he] at h
      obtain ⟨v, hv, hv1, hv2⟩ := ih h
      exact ⟨v, by simp [hv], hv1, hv2⟩

lemma goodUploads_names {files : List (String × PdfDoc)} (h : goodUploads files = true) :
    files.all (fun u => goodName u.1) = true := by
  rw [List.all_eq_true]
  intro u hu
  have hh := List.all_eq_true.1 h u hu
  rw [Bool.and_eq_true] at hh
  exact hh.1

lemma goodUploads_enc {files : List (String × PdfDoc)} (h : goodUploads files = true) :
    ∀ u ∈ files, u.2.encryption = none := by
  intro u hu
  have hh := List.all_eq_true.1 h u hu
  rw [Bool.and_eq_true, decide_eq_true_eq] at hh
  exact hh.2

/-! ### Directories present in the workspace -/

lemma hasDir_mkdirs_self (fs : Fs) (d : FsPath) : (fs.mkdirs d).hasDir d = true := by
  unfold Fs.mkdirs Fs.hasDir
  rw [contains_mem]
  apply mem_foldl_insertIfAbsent_list
  simp only [prefixesOf, List.mem_map, List.mem_range]
  exact ⟨d.length, by omega, List.take_length d⟩

lemma workspace_hasDir_input {fs0 : Fs} {W : FsPath} (hW : cleanPath W = true) :
    (workspaceFs fs0 W).hasDir (W ++ ["input"]) = true := by
  unfold workspaceFs
  apply hasDir_mkdirs_mono
  rw [resolve_inputDir hW]
  exact hasDir_mkdirs_self _ _

lemma workspace_hasDir_output {fs0 : Fs} {W : FsPath} (hW : cleanPath W = true) :
    (workspaceFs fs0 W).hasDir (W ++ ["output"]) = true := by
  unfold workspaceFs
  rw [resolve_outputDir hW]
  exact hasDir_mkdirs_self _ _

lemma workspace_hasDir_temp {fs0 : Fs} {W : FsPath} (hW : cleanPath W = true) :
    (workspaceFs fs0 W).hasDir W = true := by
  unfold workspaceFs
  apply hasDir_mkdirs_mono
  apply hasDir_mkdirs_mono
  unfold Fs.mkdir Fs.hasDir
  rw [resolve_tempPath hW, contains_mem]
  unfold insertIfAbsent
  by_cases hc : fs0.dirs.contains W = true
  · rw [if_pos hc]
    exact contains_mem.1 hc
  · rw [if_neg hc]
    simp

/-! ### The staged workspace, assembled -/

lemma stagedWorkspace_hasDir (fs0 : Fs) (W : FsPath) (files : List (String × PdfDoc))
    (d : FsPath) : (stagedWorkspace fs0 W files).hasDir d = (workspaceFs fs0 W).hasDir d := rfl

lemma stageFiles_workspace {W : FsPath} {fs0 : Fs} {files : List (String × PdfDoc)}
    (hW : cleanPath W = true) (hfresh : Fs.noneUnder fs0 W = true)
    (hnames : files.all (fun u => goodName u.1) = true)
    (hnodup : (files.map Prod.fst).Nodup) :
    stageFiles (inputDirOf W) (workspaceFs fs0 W) files =
      .ok (stagedWorkspace fs0 W files) := by
  rw [stageFiles_ok hW files (workspaceFs fs0 W) hnames (workspace_hasDir_input hW)]
  rw [workspaceFs_files]
  rw [stagedFilesList_append files fs0.files
    (fun u _ => countKey_zero_of_noneUnder hfresh _ ⟨["input", u.1], rfl⟩) hnodup]
  rfl

lemma sortLe_ne_nil {α : Type} (le : α → α → Bool) {l : List α} (h : l ≠ []) :
    sortLe le l ≠ [] := by
  intro hc
  have hlen := (sortLe_perm le l).length_eq
  rw [hc] at hlen
  exact h (List.length_eq_zero.1 hlen.symm)

lemma mergedPages_eq (files : List (String × PdfDoc)) :
    ((sortLe strLe (files.map Prod.fst)).map
      (fun n => ((findUpload n files).getD ⟨[], none⟩).pages)).flatten
      = mergedPagesOf files := by
  unfold mergedPagesOf sortedNames
  congr 1
  apply List.map_congr_left
  intro n hn
  obtain ⟨d, hd⟩ := findUpload_some_of_mem ((mem_sortLe strLe).1 hn)
  rw [show ((findUpload n files).getD ⟨[], none⟩) = d from by rw [hd]; rfl]
  rw [uploadPages, hd]

lemma tryBody_plain {env : Env} {flate : List Nat → List Nat} {W : FsPath} {fs0 : Fs}
    {files : List (String × PdfDoc)} {compress quality : String} {password : Option String}
    (hW : cleanPath W = true) (hfresh : Fs.noneUnder fs0 W = true)
    (hmode : compress = "none" ∨ compress = "builtin")
    (hgood : goodUploads files = true)
    (hnodup : (files.map Prod.fst).Nodup) (hne : files ≠ []) :
    ∃ fs5, tryBody env flate (inputDirOf W) (outputDirOf W) files compress quality password
        (workspaceFs fs0 W) = .ok (fs5, posixJoin (outputDirOf W) "merged.pdf") ∧
      fs5.readFile (W ++ ["output", "merged.pdf"]) =
        some ⟨(if compress = "builtin" then (mergedPagesOf files).map (compressPage flate)
              else mergedPagesOf files), pwOpt password⟩ ∧
      (∀ d, (workspaceFs fs0 W).hasDir d = true → fs5.hasDir d = true) := by
  have hnames := goodUploads_names hgood
  have hstage := @stageFiles_workspace W fs0 files hW hfresh hnames hnodup
  have hsorted : get_sorted_pdf_paths (stagedWorkspace fs0 W files) (inputDirOf W)
      = (sortLe strLe (files.map Prod.fst)).map (fun n => posixJoin (inputDirOf W) n) :=
    get_sorted_eq hW hfresh files hnames
  have hpaths_ne : ¬((sortLe strLe (files.map Prod.fst)).map
      (fun n => posixJoin (inputDirOf W) n) = []) := by
    intro hc
    exact sortLe_ne_nil strLe (fun h0 => hne (List.map_eq_nil_iff.1 h0))
      (List.map_eq_nil_iff.1 hc)
  have happend := @appendAll_ok W (stagedWorkspace fs0 W files) hW
    (fun n => (findUpload n files).getD ⟨[], none⟩)
    (sortLe strLe (files.map Prod.fst))
    (by
      rw [List.all_eq_true]
      intro n hn
      obtain ⟨u, hu, rfl⟩ := List.mem_map.1 ((mem_sortLe strLe).1 hn)
      exact goodName_cleanComp (List.all_eq_true.1 hnames u hu))
    (by
      intro n hn
      obtain ⟨d, hd⟩ := findUpload_some_of_mem ((mem_sortLe strLe).1 hn)
      have hrf := readFile_staged hfresh ((workspaceFs fs0 W).dirs) files n
      have hgd : ((findUpload n files).getD ⟨[], none⟩) = d := by
        rw [hd]
        rfl
      constructor
      · show (stagedWorkspace fs0 W files).readFile (W ++ ["input", n])
            = some ((findUpload n files).getD ⟨[], none⟩)
        rw [hgd]
        exact hrf.trans hd
      · show ((findUpload n files).getD ⟨[], none⟩).encryption = none
        obtain ⟨u, hu, _, hud⟩ := findUpload_mem hd
        rw [hgd, ← hud]
        exact goodUploads_enc hgood u hu)
  rw [mergedPages_eq files] at happend
  obtain ⟨fsOut, hmerge, hfiles, hmono⟩ := merge_pdfs_ok hW happend
    (by rw [stagedWorkspace_hasDir]; exact workspace_hasDir_output hW)
    flate (decide (compress = "builtin")) password
  have hng : ¬(compress = "ghostscript") := by
    rcases hmode with h | h <;> rw [h] <;> intro hx <;> exact absurd hx (by decide)
  refine ⟨fsOut, ?_, ?_, ?_⟩
  · unfold tryBody
    rw [hstage]
    simp only [hsorted, if_neg hpaths_ne]
    rw [if_pos (by rcases hmode with h | h <;> rw [h] <;> simp)]
    rw [hmerge]
    simp only [if_neg hng]
    rw [if_neg (fun hand => hng hand.2)]
  · unfold Fs.readFile
    rw [hfiles, findVal_updateAssoc_self]
    simp only [decide_eq_true_eq]
  · intro d hd
    exact hmono d (by rw [stagedWorkspace_hasDir]; exact hd)

lemma handler_plain {env : Env} {flate : List Nat → List Nat} {W : FsPath} {fs0 : Fs}
    {files : List (String × PdfDoc)} {compress quality : String} {password : Option String}
    (hW : cleanPath W = true) (hfresh : Fs.noneUnder fs0 W = true)
    (hmode : compress = "none" ∨ compress = "builtin")
    (hgood : goodUploads files = true)
    (hnodup : (files.map Prod.fst).Nodup) (hne : files ≠ []) :
    ∃ fsF,
      merge_pdf_files env flate W fs0 files compress quality password =
        .success ⟨W ++ ["output", "merged.pdf"], "merged.pdf", "application/pdf"⟩
          [BgTask.cleanupWorkspace W] fsF ∧
      fsF.readFile (W ++ ["output", "merged.pdf"]) =
        some ⟨(if compress = "builtin" then (mergedPagesOf files).map (compressPage flate)
              else mergedPagesOf files), pwOpt password⟩ ∧
      fsF.hasDir W = true := by
  obtain ⟨fs5, htb, hread, hmono⟩ :=
    @tryBody_plain env flate W fs0 files compress quality password
      hW hfresh hmode hgood hnodup hne
  have hc : valid_compress.contains compress = true := by
    rcases hmode with h | h <;> rw [h] <;> decide
  refine ⟨fs5, ?_, hread, hmono W (workspace_hasDir_temp hW)⟩
  unfold merge_pdf_files
  rw [if_neg (fun hn => hn hc)]
  rw [if_neg (show ¬(compress = "ghostscript" ∧ ¬valid_quality.contains quality = true) from by
    rcases hmode with h | h <;> rw [h] <;> rintro ⟨h1, -⟩ <;> exact absurd h1 (by decide))]
  simp only [htb]
  rw [resolve_output_name hW (by decide), resolve_tempPath hW]

lemma map_uploadPages_names {files : List (String × PdfDoc)}
    (hnodup : (files.map Prod.fst).Nodup) :
    (files.map Prod.fst).map (fun n => uploadPages files n) =
      files.map (fun u => u.2.pages) := by
  induction files with
  | nil => rfl
  | cons u rest ih =>
    rw [List.map_cons, List.nodup_cons] at hnodup
    rw [List.map_cons, List.map_cons, List.map_cons]
    have h1 : uploadPages (u :: rest) u.1 = u.2.pages := by
      unfold uploadPages findUpload
      rw [if_pos rfl]
    have h2 : ∀ m ∈ rest.map Prod.fst, uploadPages (u :: rest) m = uploadPages rest m := by
      intro m hm
      have hne2 : ¬(u.1 = m) := fun he => hnodup.1 (by rw [he]; exact hm)
      unfold uploadPages
      rw [show findUpload m (u :: rest) = findUpload m rest from by
        rw [findUpload, if_neg hne2]]
    rw [h1, List.map_congr_left h2, ih hnodup.2]

lemma mergedPages_length {files : List (String × PdfDoc)}
    (hnodup : (files.map Prod.fst).Nodup) :
    (mergedPagesOf files).length = (files.map (fun u => u.2.pages.length)).sum := by
  unfold mergedPagesOf
  rw [List.length_flatten, List.map_map]
  have hperm : List.Perm ((sortedNames files).map (List.length ∘ uploadPages files))
      ((files.map Prod.fst).map (List.length ∘ uploadPages files)) :=
    (sortLe_perm strLe (files.map Prod.fst)).map _
  rw [hperm.sum_eq]
  have hsplit := (List.map_map (g := List.length) (f := uploadPages files)
    (l := files.map Prod.fst)).symm
  rw [show (files.map Prod.fst).map (fun n => uploadPages files n)
      = (files.map Prod.fst).map (uploadPages files) from rfl] at *
  rw [hsplit, map_uploadPages_names hnodup, List.map_map]
  rfl

/-- Claim C1: for every request with N ≥ 1 uploaded PDF files that passes
validation (modes `none`/`builtin`; ordinary distinct filenames; for the
`ghostscript` mode the same merge runs before the external tool), the
merged output served to the client consists exactly of the inputs' pages:
its page sequence is the concatenation of the inputs' page lists taken in
simple lexicographic (codepoint) order of their filenames — page order
preserved within each input, page count equal to the sum of the inputs'
page counts — and that order is plain lexicographic, not natural/numeric
order (`page10.pdf` sorts before `page2.pdf`). -/
theorem c1_merge_lexicographic_order (env : Env) (flate : List Nat → List Nat)
    (W : FsPath) (fs0 : Fs) (files : List (String × PdfDoc))
    (compress quality : String) (password : Option String)
    (hW : cleanPath W = true) (hfresh : Fs.noneUnder fs0 W = true)
    (hmode : compress = "none" ∨ compress = "builtin")
    (hgood : goodUploads files = true)
    (hnodup : (files.map Prod.fst).Nodup) (hne : files ≠ []) :
    ∃ doc,
      (merge_pdf_files env flate W fs0 files compress quality password).servedDoc = some doc ∧
      doc.pages.map PdfPage.pid =
        (((sortedNames files).map (uploadPages files)).flatten).map PdfPage.pid ∧
      (compress = "none" → doc.pages = ((sortedNames files).map (uploadPages files)).flatten) ∧
      doc.pages.length = (files.map (fun u => u.2.pages.length)).sum ∧
      sortedNames [("page10.pdf", ⟨[], none⟩), ("page2.pdf", ⟨[], none⟩)] =
        ["page10.pdf", "page2.pdf"] := by
  obtain ⟨fsF, hrun, hread, -⟩ := handler_plain hW hfresh hmode hgood hnodup hne
  refine ⟨⟨(if compress = "builtin" then (mergedPagesOf files).map (compressPage flate)
      else mergedPagesOf files), pwOpt password⟩, ?_, ?_, ?_, ?_, by decide⟩
  · rw [hrun]
    exact hread
  · show (if compress = "builtin" then (mergedPagesOf files).map (compressPage flate)
      else mergedPagesOf files).map PdfPage.pid = (mergedPagesOf files).map PdfPage.pid
    by_cases hb : compress = "builtin"
    · rw [if_pos hb, List.map_map]
      rfl
    · rw [if_neg hb]
  · intro hn
    show (if compress = "builtin" then (mergedPagesOf files).map (compressPage flate)
      else mergedPagesOf files) = mergedPagesOf files
    rw [if_neg (by rw [hn]; decide)]
  · show (if compress = "builtin" then (mergedPagesOf files).map (compressPage flate)
      else mergedPagesOf files).length = (files.map (fun u => u.2.pages.length)).sum
    by_cases hb : compress = "builtin"
    · rw [if_pos hb, List.length_map]
      exact mergedPages_length hnodup
    · rw [if_neg hb]
      exact mergedPages_length hnodup

/-- Witness for C1 at a concrete request: two uploads named `page2.pdf`
(two pages) and `page10.pdf` (one page) merge in lexicographic order
(`page10.pdf` before `page2.pdf`), with all three pages present. Every
hypothesis of the theorem is discharged at this concrete input. -/
theorem c1_merge_lexicographic_order_witness :
    cleanPath ["tmp", "w0"] = true ∧
    (∃ doc,
      (merge_pdf_files ⟨fun _ => none, GsOutcome.spawnFail⟩ id ["tmp", "w0"] ⟨[], []⟩
        [("page2.pdf", ⟨[⟨1, [10]⟩, ⟨2, [20]⟩], none⟩), ("page10.pdf", ⟨[⟨3, [30]⟩], none⟩)]
        "none" "ebook" none).servedDoc = some doc ∧
      doc.pages.map PdfPage.pid =
        (((sortedNames [("page2.pdf", ⟨[⟨1, [10]⟩, ⟨2, [20]⟩], none⟩),
            ("page10.pdf", ⟨[⟨3, [30]⟩], none⟩)]).map
          (uploadPages [("page2.pdf", ⟨[⟨1, [10]⟩, ⟨2, [20]⟩], none⟩),
            ("page10.pdf", ⟨[⟨3, [30]⟩], none⟩)])).flatten).map PdfPage.pid ∧
      ("none" = "none" → doc.pages =
        ((sortedNames [("page2.pdf", ⟨[⟨1, [10]⟩, ⟨2, [20]⟩], none⟩),
            ("page10.pdf", ⟨[⟨3, [30]⟩], none⟩)]).map
          (uploadPages [("page2.pdf", ⟨[⟨1, [10]⟩, ⟨2, [20]⟩], none⟩),
            ("page10.pdf", ⟨[⟨3, [30]⟩], none⟩)])).flatten) ∧
      doc.pages.length =
        ([("page2.pdf", (⟨[⟨1, [10]⟩, ⟨2, [20]⟩], none⟩ : PdfDoc)),
          ("page10.pdf", ⟨[⟨3, [30]⟩], none⟩)].map (fun u => u.2.pages.length)).sum ∧
      sortedNames [("page10.pdf", ⟨[], none⟩), ("page2.pdf", ⟨[], none⟩)] =
        ["page10.pdf", "page2.pdf"]) :=
  ⟨by decide,
    c1_merge_lexicographic_order ⟨fun _ => none, GsOutcome.spawnFail⟩ id ["tmp", "w0"]
      ⟨[], []⟩ _ "none" "ebook" none (by decide) (by decide) (Or.inl rfl) (by decide)
      (by decide) (by decide)⟩

/-! ### The external-compression and encryption stages -/

lemma outputKey_inj {W : FsPath} {a b : String}
    (h : W ++ ["output", a] = W ++ ["output", b]) : a = b := by
  have := (List.append_right_inj W).1 h
  simpa using this

lemma renameFile_eq {fs : Fs} {src dst : FsPath} {doc : PdfDoc}
    (hsrc : findVal fs.files src = some doc) (hdst : fs.hasDir dst.dropLast = true) :
    fs.renameFile src dst = some ⟨fs.dirs, updateAssoc (removeKey fs.files src) dst doc⟩ := by
  unfold Fs.renameFile
  rw [hsrc]
  simp [hdst]

lemma removeFile_eq {fs : Fs} {p : FsPath} {doc : PdfDoc}
    (hp : findVal fs.files p = some doc) :
    fs.removeFile p = some ⟨fs.dirs, removeKey fs.files p⟩ := by
  unfold Fs.removeFile
  rw [hp]

lemma ghostscriptStage_ok {env : Env} {fs : Fs} {W : FsPath} {A0 : PdfDoc}
    {quality : String} (hW : cleanPath W = true)
    (hread : fs.readFile (W ++ ["output", "merged.pdf"]) = some A0)
    (hdir : fs.hasDir (W ++ ["output"]) = true)
    (hben : gsBenign env) :
    ∃ fs4, ghostscriptStage env fs (outputDirOf W)
        (posixJoin (outputDirOf W) "merged.pdf") quality = .ok fs4 ∧
      fs4.readFile (W ++ ["output", "merged.pdf"]) = some (gsOutDoc env A0) ∧
      fs4.dirs = fs.dirs := by
  have hkM : resolvePath (posixJoin (outputDirOf W) "merged.pdf")
      = W ++ ["output", "merged.pdf"] := resolve_output_name hW (by decide)
  have hkT : resolvePath (posixJoin (outputDirOf W) "merged.tmp.pdf")
      = W ++ ["output", "merged.tmp.pdf"] := resolve_output_name hW (by decide)
  have hMT : ¬(W ++ ["output", "merged.pdf"] = W ++ ["output", "merged.tmp.pdf"]) :=
    fun h => absurd (outputKey_inj h) (by decide)
  have hTM : ¬(W ++ ["output", "merged.tmp.pdf"] = W ++ ["output", "merged.pdf"]) :=
    fun h => absurd (outputKey_inj h) (by decide)
  have hTdrop : (W ++ ["output", "merged.tmp.pdf"]).dropLast = W ++ ["output"] := by
    rw [output_key_split, List.dropLast_concat]
  have hMdrop : (W ++ ["output", "merged.pdf"]).dropLast = W ++ ["output"] := by
    rw [output_key_split, List.dropLast_concat]
  have hrn := @renameFile_eq fs (W ++ ["output", "merged.pdf"])
    (W ++ ["output", "merged.tmp.pdf"]) _ hread (by rw [hTdrop]; exact hdir)
  set fsR : Fs := ⟨fs.dirs, updateAssoc (removeKey fs.files (W ++ ["output", "merged.pdf"]))
    (W ++ ["output", "merged.tmp.pdf"]) A0⟩ with hfsR
  have hRt : findVal fsR.files (W ++ ["output", "merged.tmp.pdf"]) = some A0 :=
    findVal_updateAssoc_self _ _ _
  have hRdir : fsR.hasDir (W ++ ["output"]) = true := hdir
  unfold ghostscriptStage compress_with_ghostscript
  unfold gsBenign at hben
  unfold gsOutDoc
  cases hwg : whichGs env with
  | none =>
    simp only [hwg] at hben ⊢
    have hrn2 := @renameFile_eq fsR (W ++ ["output", "merged.tmp.pdf"])
      (W ++ ["output", "merged.pdf"]) _ hRt (by rw [hMdrop]; exact hRdir)
    simp only [hkM, hkT, hrn, hrn2]
    refine ⟨_, rfl, ?_, rfl⟩
    show findVal (updateAssoc (removeKey fsR.files (W ++ ["output", "merged.tmp.pdf"]))
      (W ++ ["output", "merged.pdf"]) A0) (W ++ ["output", "merged.pdf"]) = some A0
    exact findVal_updateAssoc_self _ _ _
  | some g =>
    simp only [hwg] at hben ⊢
    cases hgs : env.gs with
    | spawnFail =>
      simp only [hgs] at hben
    | exited code out =>
      simp only [hgs] at hben ⊢
      cases code with
      | zero =>
        have hwr : fsR.writeFile (W ++ ["output", "merged.pdf"]) out =
            some ⟨fsR.dirs, updateAssoc fsR.files (W ++ ["output", "merged.pdf"]) out⟩ := by
          rw [output_key_split, writeFile_child hRdir, ← output_key_split]
        have hrm : findVal (updateAssoc fsR.files (W ++ ["output", "merged.pdf"]) out)
            (W ++ ["output", "merged.tmp.pdf"]) = some A0 := by
          rw [findVal_updateAssoc_ne _ _ _ _ hTM]
          exact hRt
        have hrmf := @removeFile_eq
          ⟨fsR.dirs, updateAssoc fsR.files (W ++ ["output", "merged.pdf"]) out⟩
          (W ++ ["output", "merged.tmp.pdf"]) _ hrm
        simp only [hkM, hkT, hrn, hwr, hrmf]
        refine ⟨_, rfl, ?_, rfl⟩
        show findVal (removeKey (updateAssoc fsR.files (W ++ ["output", "merged.pdf"]) out)
          (W ++ ["output", "merged.tmp.pdf"])) (W ++ ["output", "merged.pdf"]) = some out
        rw [findVal_removeKey_ne _ _ _ hMT]
        exact findVal_updateAssoc_self _ _ _
      | succ c =>
        have hrn2 := @renameFile_eq fsR (W ++ ["output", "merged.tmp.pdf"])
          (W ++ ["output", "merged.pdf"]) _ hRt (by rw [hMdrop]; exact hRdir)
        simp only [hkM, hkT, hrn, hrn2]
        refine ⟨_, rfl, ?_, rfl⟩
        show findVal (updateAssoc (removeKey fsR.files (W ++ ["output", "merged.tmp.pdf"]))
          (W ++ ["output", "merged.pdf"]) A0) (W ++ ["output", "merged.pdf"]) = some A0
        exact findVal_updateAssoc_self _ _ _

lemma encryptStage_ok {fs : Fs} {W : FsPath} {A : PdfDoc} {pw : String}
    (hW : cleanPath W = true)
    (hread : fs.readFile (W ++ ["output", "merged.pdf"]) = some A)
    (henc : A.encryption = none)
    (hdir : fs.hasDir (W ++ ["output"]) = true) :
    ∃ fs5, encryptStage fs (outputDirOf W) (posixJoin (outputDirOf W) "merged.pdf") pw
        = .ok fs5 ∧
      fs5.readFile (W ++ ["output", "merged.pdf"]) = some ⟨A.pages, some pw⟩ ∧
      fs5.dirs = fs.dirs := by
  have hkM : resolvePath (posixJoin (outputDirOf W) "merged.pdf")
      = W ++ ["output", "merged.pdf"] := resolve_output_name hW (by decide)
  have hkE : resolvePath (posixJoin (outputDirOf W) "merged.encrypted.pdf")
      = W ++ ["output", "merged.encrypted.pdf"] := resolve_output_name hW (by decide)
  have hMdrop : (W ++ ["output", "merged.pdf"]).dropLast = W ++ ["output"] := by
    rw [output_key_split, List.dropLast_concat]
  have hisign : A.encryption.isSome = false := by
    rw [henc]
    rfl
  have hwr : fs.writeFile (W ++ ["output", "merged.encrypted.pdf"])
      ⟨A.pages, some pw⟩ = some ⟨fs.dirs, updateAssoc fs.files
        (W ++ ["output", "merged.encrypted.pdf"]) ⟨A.pages, some pw⟩⟩ := by
    rw [output_key_split, writeFile_child hdir, ← output_key_split]
  have hrn := @renameFile_eq
    ⟨fs.dirs, updateAssoc fs.files (W ++ ["output", "merged.encrypted.pdf"])
      ⟨A.pages, some pw⟩⟩
    (W ++ ["output", "merged.encrypted.pdf"])
    (W ++ ["output", "merged.pdf"])
    ⟨A.pages, some pw⟩
    (findVal_updateAssoc_self _ _ _) (by rw [hMdrop]; exact hdir)
  unfold encryptStage encrypt_pdf
  simp only [hkM, hkE, hread, hisign, Bool.false_eq_true, if_false, hwr, hrn]
  refine ⟨_, rfl, ?_, rfl⟩
  show findVal (updateAssoc (removeKey (updateAssoc fs.files
      (W ++ ["output", "merged.encrypted.pdf"]) ⟨A.pages, some pw⟩)
      (W ++ ["output", "merged.encrypted.pdf"])) (W ++ ["output", "merged.pdf"])
      ⟨A.pages, some pw⟩) (W ++ ["output", "merged.pdf"]) = some ⟨A.pages, some pw⟩
  exact findVal_updateAssoc_self _ _ _

lemma gsOutDoc_enc {env : Env} {a : PdfDoc} (hben : gsBenign env)
    (ha : a.encryption = none) : (gsOutDoc env a).encryption = none := by
  unfold gsBenign at hben
  unfold gsOutDoc
  cases hwg : whichGs env with
  | none => exact ha
  | some g =>
    rw [hwg] at hben
    cases hgs : env.gs with
    | spawnFail =>
      rw [hgs] at hben
      cases hben
    | exited code out =>
      rw [hgs] at hben
      cases code with
      | zero => exact hben
      | succ c => exact ha

set_option maxHeartbeats 2000000 in
lemma tryBody_gs {env : Env} {flate : List Nat → List Nat} {W : FsPath} {fs0 : Fs}
    {files : List (String × PdfDoc)} {quality : String} {password : Option String}
    (hW : cleanPath W = true) (hfresh : Fs.noneUnder fs0 W = true)
    (hgood : goodUploads files = true)
    (hnodup : (files.map Prod.fst).Nodup) (hne : files ≠ [])
    (hben : gsBenign env) :
    ∃ fs5, tryBody env flate (inputDirOf W) (outputDirOf W) files "ghostscript" quality
        password (workspaceFs fs0 W) = .ok (fs5, posixJoin (outputDirOf W) "merged.pdf") ∧
      fs5.readFile (W ++ ["output", "merged.pdf"]) =
        some (gsFinalDoc env ⟨mergedPagesOf files, none⟩ password) ∧
      (∀ d, (workspaceFs fs0 W).hasDir d = true → fs5.hasDir d = true) := by
  have hnames := goodUploads_names hgood
  have hstage := @stageFiles_workspace W fs0 files hW hfresh hnames hnodup
  have hsorted : get_sorted_pdf_paths (stagedWorkspace fs0 W files) (inputDirOf W)
      = (sortLe strLe (files.map Prod.fst)).map (fun n => posixJoin (inputDirOf W) n) :=
    get_sorted_eq hW hfresh files hnames
  have hpaths_ne : ¬((sortLe strLe (files.map Prod.fst)).map
      (fun n => posixJoin (inputDirOf W) n) = []) := by
    intro hc
    exact sortLe_ne_nil strLe (fun h0 => hne (List.map_eq_nil_iff.1 h0))
      (List.map_eq_nil_iff.1 hc)
  have happend := @appendAll_ok W (stagedWorkspace fs0 W files) hW
    (fun n => (findUpload n files).getD ⟨[], none⟩)
    (sortLe strLe (files.map Prod.fst))
    (by
      rw [List.all_eq_true]
      intro n hn
      obtain ⟨u, hu, rfl⟩ := List.mem_map.1 ((mem_sortLe strLe).1 hn)
      exact goodName_cleanComp (List.all_eq_true.1 hnames u hu))
    (by
      intro n hn
      obtain ⟨d, hd⟩ := findUpload_some_of_mem ((mem_sortLe strLe).1 hn)
      have hrf := readFile_staged hfresh ((workspaceFs fs0 W).dirs) files n
      have hgd : ((findUpload n files).getD ⟨[], none⟩) = d := by
        rw [hd]
        rfl
      constructor
      · show (stagedWorkspace fs0 W files).readFile (W ++ ["input", n])
            = some ((findUpload n files).getD ⟨[], none⟩)
        rw [hgd]
        exact hrf.trans hd
      · show ((findUpload n files).getD ⟨[], none⟩).encryption = none
        obtain ⟨u, hu, _, hud⟩ := findUpload_mem hd
        rw [hgd, ← hud]
        exact goodUploads_enc hgood u hu)
  rw [mergedPages_eq files] at happend
  obtain ⟨fs3, hmerge, hfiles, hmono⟩ := merge_pdfs_ok hW happend
    (by rw [stagedWorkspace_hasDir]; exact workspace_hasDir_output hW)
    flate false none
  have hread3 : fs3.readFile (W ++ ["output", "merged.pdf"]) =
      some ⟨mergedPagesOf files, none⟩ := by
    unfold Fs.readFile
    rw [hfiles, findVal_updateAssoc_self]
    rfl
  have hdir3 : fs3.hasDir (W ++ ["output"]) = true :=
    hmono _ (by rw [stagedWorkspace_hasDir]; exact workspace_hasDir_output hW)
  obtain ⟨fs4, hgsrun, hread4, hdirs4⟩ := @ghostscriptStage_ok env fs3 W
    _ quality hW hread3 hdir3 hben
  have hdir4 : fs4.hasDir (W ++ ["output"]) = true := by
    unfold Fs.hasDir
    rw [hdirs4]
    exact hdir3
  refine ?_
  cases hpwt : pyTruthy password with
  | true =>
    obtain ⟨fs5, hencrun, hread5, hdirs5⟩ := @encryptStage_ok fs4 W _ (password.getD "") hW
      hread4 (gsOutDoc_enc hben rfl) hdir4
    refine ⟨fs5, ?_, ?_, ?_⟩
    · unfold tryBody
      rw [hstage]
      simp only [hsorted, if_neg hpaths_ne]
      rw [if_neg (by rintro (h | h) <;> exact absurd h (by decide))]
      simp only [hmerge]
      simp only [hgsrun]
      simp only [if_true, and_true]
      rw [if_pos hpwt]
      simp only [hencrun]
    · rw [hread5]
      unfold gsFinalDoc
      rw [if_pos hpwt]
    · intro d hd
      have h4 : fs4.hasDir d = true := by
        unfold Fs.hasDir
        rw [hdirs4]
        exact hmono d (by rw [stagedWorkspace_hasDir]; exact hd)
      unfold Fs.hasDir
      rw [hdirs5]
      exact h4
  | false =>
    refine ⟨fs4, ?_, ?_, ?_⟩
    · unfold tryBody
      rw [hstage]
      simp only [hsorted, if_neg hpaths_ne]
      rw [if_neg (by rintro (h | h) <;> exact absurd h (by decide))]
      simp only [hmerge]
      simp only [hgsrun]
      simp only [if_true, and_true]
      rw [if_neg (by rw [hpwt]; simp)]
    · rw [hread4]
      unfold gsFinalDoc
      rw [if_neg (by rw [hpwt]; exact fun h => by cases h)]
    · intro d hd
      unfold Fs.hasDir
      rw [hdirs4]
      exact hmono d (by rw [stagedWorkspace_hasDir]; exact hd)

lemma handler_gs {env : Env} {flate : List Nat → List Nat} {W : FsPath} {fs0 : Fs}
    {files : List (String × PdfDoc)} {quality : String} {password : Option String}
    (hW : cleanPath W = true) (hfresh : Fs.noneUnder fs0 W = true)
    (hq : valid_quality.contains quality = true)
    (hgood : goodUploads files = true)
    (hnodup : (files.map Prod.fst).Nodup) (hne : files ≠ [])
    (hben : gsBenign env) :
    ∃ fsF,
      merge_pdf_files env flate W fs0 files "ghostscript" quality password =
        .success ⟨W ++ ["output", "merged.pdf"], "merged.pdf", "application/pdf"⟩
          [BgTask.cleanupWorkspace W] fsF ∧
      fsF.readFile (W ++ ["output", "merged.pdf"]) =
        some (gsFinalDoc env ⟨mergedPagesOf files, none⟩ password) ∧
      fsF.hasDir W = true := by
  obtain ⟨fs5, htb, hread, hmono⟩ :=
    @tryBody_gs env flate W fs0 files quality password hW hfresh hgood hnodup hne hben
  refine ⟨fs5, ?_, hread, hmono W (workspace_hasDir_temp hW)⟩
  unfold merge_pdf_files
  rw [if_neg (fun hn => hn (by decide))]
  rw [if_neg (fun hand => hand.2 hq)]
  simp only [htb]
  rw [resolve_output_name hW (by decide), resolve_tempPath hW]

/-! ### Directory bookkeeping through the pipeline -/

lemma writeFile_dirs {fs fs1 : Fs} {p : FsPath} {doc : PdfDoc}
    (h : fs.writeFile p doc = some fs1) : fs1.dirs = fs.dirs := by
  unfold Fs.writeFile at h
  by_cases hd : fs.hasDir p.dropLast = true
  · rw [if_pos hd] at h
    cases h
    rfl
  · rw [if_neg hd] at h
    cases h

lemma renameFile_dirs {fs fs1 : Fs} {src dst : FsPath}
    (h : fs.renameFile src dst = some fs1) : fs1.dirs = fs.dirs := by
  unfold Fs.renameFile at h
  cases hf : findVal fs.files src with
  | none =>
    simp only [hf] at h
    cases h
  | some doc =>
    simp only [hf] at h
    by_cases hd : fs.hasDir dst.dropLast = true
    · rw [if_pos hd] at h
      cases h
      rfl
    · rw [if_neg hd] at h
      cases h

lemma removeFile_dirs {fs fs1 : Fs} {p : FsPath}
    (h : fs.removeFile p = some fs1) : fs1.dirs = fs.dirs := by
  unfold Fs.removeFile at h
  cases hf : findVal fs.files p with
  | none =>
    simp only [hf] at h
    cases h
  | some doc =>
    simp only [hf] at h
    cases h
    rfl

lemma stageFiles_dirs {i : String} :
    ∀ (files : List (String × PdfDoc)) (fs fs2 : Fs),
    stageFiles i fs files = .ok fs2 → fs2.dirs = fs.dirs := by
  intro files
  induction files with
  | nil =>
    intro fs fs2 h
    cases h
    rfl
  | cons u rest ih =>
    intro fs fs2 h
    obtain ⟨name, doc⟩ := u
    rw [stageFiles] at h
    by_cases hv : name = "" ∨ ¬ pyEndsWith (pyLower name) ".pdf" = true
    · rw [if_pos hv] at h
      cases h
    · rw [if_neg hv] at h
      cases hw : Fs.writeFile fs (resolvePath (posixJoin i name)) doc with
      | none =>
        simp only [hw] at h
        cases h
      | some fs1 =>
        simp only [hw] at h
        rw [ih fs1 fs2 h, writeFile_dirs hw]

lemma merge_pdfs_hasDir {flate : List Nat → List Nat} {fs fs3 : Fs}
    {input_paths : List String} {output_path : String} {cb : Bool} {pw : Option String}
    (h : merge_pdfs flate fs input_paths output_path cb pw = .ok fs3) :
    ∀ d, fs.hasDir d = true → fs3.hasDir d = true := by
  intro d hd
  simp only [merge_pdfs] at h
  cases ha : appendAll fs input_paths with
  | error e =>
    simp only [ha] at h
    cases h
  | ok pages0 =>
    simp only [ha] at h
    split at h
    · rename_i fs2 hw
      cases h
      unfold Fs.hasDir
      rw [writeFile_dirs hw]
      exact hasDir_mkdirs_mono hd
    · cases h

lemma gs_dirs {env : Env} {fs fsG : Fs} {i o q : String} {b : Bool}
    (h : compress_with_ghostscript env fs i o q = .ok (b, fsG)) : fsG.dirs = fs.dirs := by
  unfold compress_with_ghostscript at h
  cases hw : whichGs env with
  | none =>
    simp only [hw] at h
    cases h
    rfl
  | some p =>
    simp only [hw] at h
    cases hg : env.gs with
    | exited code out =>
      simp only [hg] at h
      cases code with
      | zero =>
        cases hw2 : fs.writeFile (resolvePath o) out with
        | none =>
          simp only [hw2] at h
          cases h
        | some fs1 =>
          simp only [hw2] at h
          cases h
          exact writeFile_dirs hw2
      | succ c =>
        cases h
        rfl
    | spawnFail =>
      simp only [hg] at h
      cases h

lemma ghostscriptStage_dirs {env : Env} {fs fs4 : Fs} {o m q : String}
    (h : ghostscriptStage env fs o m q = .ok fs4) : fs4.dirs = fs.dirs := by
  unfold ghostscriptStage at h
  cases hr : fs.renameFile (resolvePath m) (resolvePath (posixJoin o "merged.tmp.pdf")) with
  | none =>
    simp only [hr] at h
    cases h
  | some fsR =>
    simp only [hr] at h
    cases hc : compress_with_ghostscript env fsR (posixJoin o "merged.tmp.pdf") m q with
    | error e =>
      simp only [hc] at h
      cases h
    | ok pr =>
      obtain ⟨b, fsG⟩ := pr
      simp only [hc] at h
      cases b with
      | true =>
        cases hrm : fsG.removeFile (resolvePath (posixJoin o "merged.tmp.pdf")) with
        | none =>
          simp only [hrm] at h
          cases h
        | some fs1 =>
          simp only [hrm] at h
          cases h
          rw [removeFile_dirs hrm, gs_dirs hc, renameFile_dirs hr]
      | false =>
        cases hrn : fsG.renameFile (resolvePath (posixJoin o "merged.tmp.pdf"))
            (resolvePath m) with
        | none =>
          simp only [hrn] at h
          cases h
        | some fs1 =>
          simp only [hrn] at h
          cases h
          rw [renameFile_dirs hrn, gs_dirs hc, renameFile_dirs hr]

lemma encrypt_pdf_dirs {fs fs1 : Fs} {i o pw : String}
    (h : encrypt_pdf fs i o pw = .ok fs1) : fs1.dirs = fs.dirs := by
  unfold encrypt_pdf at h
  cases hr : fs.readFile (resolvePath i) with
  | none =>
    simp only [hr] at h
    cases h
  | some doc =>
    simp only [hr] at h
    by_cases he : doc.encryption.isSome = true
    · rw [if_pos he] at h
      cases h
    · rw [if_neg he] at h
      cases hw : fs.writeFile (resolvePath o) ⟨doc.pages, some pw⟩ with
      | none =>
        simp only [hw] at h
        cases h
      | some fs2 =>
        simp only [hw] at h
        cases h
        exact writeFile_dirs hw

lemma encryptStage_dirs {fs fs5 : Fs} {o m pw : String}
    (h : encryptStage fs o m pw = .ok fs5) : fs5.dirs = fs.dirs := by
  unfold encryptStage at h
  cases he : encrypt_pdf fs m (posixJoin o "merged.encrypted.pdf") pw with
  | error e =>
    simp only [he] at h
    cases h
  | ok fsE =>
    simp only [he] at h
    cases hr : fsE.renameFile (resolvePath (posixJoin o "merged.encrypted.pdf"))
        (resolvePath m) with
    | none =>
      simp only [hr] at h
      cases h
    | some fs1 =>
      simp only [hr] at h
      cases h
      rw [renameFile_dirs hr, encrypt_pdf_dirs he]

lemma tryBody_hasDir {env : Env} {flate : List Nat → List Nat} {i o : String}
    {files : List (String × PdfDoc)} {compress quality : String}
    {password : Option String} {fs fs5 : Fs} {mp : String}
    (h : tryBody env flate i o files compress quality password fs = .ok (fs5, mp)) :
    ∀ d, fs.hasDir d = true → fs5.hasDir d = true := by
  intro d hd
  unfold tryBody at h
  cases hs : stageFiles i fs files with
  | error ef =>
    simp only [hs] at h
    cases h
  | ok fs2 =>
    simp only [hs] at h
    by_cases hp : get_sorted_pdf_paths fs2 i = []
    · rw [if_pos hp] at h
      cases h
    · rw [if_neg hp] at h
      have hd2 : fs2.hasDir d = true := by
        unfold Fs.hasDir
        rw [stageFiles_dirs files fs fs2 hs]
        exact hd
      split at h
      · cases h
      · rename_i fs3 hm
        split at h
        · cases h
        · rename_i fs4 hg4
          split at h
          · cases h
          · rename_i fs5x hg5
            cases h
            have hd3 : fs3.hasDir d = true := by
              by_cases hbn : compress = "builtin" ∨ compress = "none"
              · rw [if_pos hbn] at hm
                exact merge_pdfs_hasDir hm d hd2
              · rw [if_neg hbn] at hm
                exact merge_pdfs_hasDir hm d hd2
            have hd4 : fs4.hasDir d = true := by
              by_cases hgc : compress = "ghostscript"
              · rw [if_pos hgc] at hg4
                unfold Fs.hasDir
                rw [ghostscriptStage_dirs hg4]
                exact hd3
              · rw [if_neg hgc] at hg4
                cases hg4
                exact hd3
            by_cases hec : pyTruthy password = true ∧ compress = "ghostscript"
            · rw [if_pos hec] at hg5
              unfold Fs.hasDir
              rw [encryptStage_dirs hg5]
              exact hd4
            · rw [if_neg hec] at hg5
              cases hg5
              exact hd4

lemma noneUnder_rmtree (fs : Fs) (root : FsPath) :
    (fs.rmtree root).noneUnder root = true := by
  unfold Fs.rmtree Fs.noneUnder
  rw [Bool.and_eq_true, List.all_eq_true, List.all_eq_true]
  refine ⟨fun d hd => ?_, fun e he => ?_⟩
  · exact (List.mem_filter.1 hd).2
  · exact (List.mem_filter.1 he).2

/-! ### The environments in which the external tool reports failure -/

lemma gsBenign_of_failed {env : Env}
    (h : whichGs env = none ∨ ∃ c d, env.gs = GsOutcome.exited (c + 1) d) :
    gsBenign env := by
  unfold gsBenign
  rcases h with h | ⟨c, dd, h⟩
  · rw [h]
    trivial
  · rw [h]
    cases whichGs env <;> trivial

lemma gsOutDoc_of_failed {env : Env} {a : PdfDoc}
    (h : whichGs env = none ∨ ∃ c d, env.gs = GsOutcome.exited (c + 1) d) :
    gsOutDoc env a = a := by
  unfold gsOutDoc
  rcases h with h | ⟨c, dd, h⟩
  · rw [h]
  · rw [h]
    cases whichGs env <;> rfl

/-! ### The quality field is dead for the non-external modes -/

lemma tryBody_quality_irrel {env : Env} {flate : List Nat → List Nat} {i o : String}
    {files : List (String × PdfDoc)} {compress : String} {password : Option String}
    {fs : Fs} (hng : compress ≠ "ghostscript") (q q2 : String) :
    tryBody env flate i o files compress q password fs =
      tryBody env flate i o files compress q2 password fs := by
  unfold tryBody
  simp only [if_neg hng]

/-- Claim C5: for every request in the external compression mode
(`compress=ghostscript`) with a non-empty password, the final artifact
served to the client is password-encrypted: its encryption is exactly the
supplied password and its pages are the pages of the post-compression
artifact (the tool's output when it ran successfully, the restored merged
document when the tool was absent or exited nonzero) — the encryption step
runs regardless of whether the external tool was available or succeeded. -/
theorem c5_external_password_encrypts (env : Env) (flate : List Nat → List Nat)
    (W : FsPath) (fs0 : Fs) (files : List (String × PdfDoc))
    (quality : String) (pw : String)
    (hW : cleanPath W = true) (hfresh : Fs.noneUnder fs0 W = true)
    (hq : valid_quality.contains quality = true)
    (hgood : goodUploads files = true)
    (hnodup : (files.map Prod.fst).Nodup) (hne : files ≠ [])
    (hben : gsBenign env) (hpw : pw ≠ "") :
    ∃ doc,
      (merge_pdf_files env flate W fs0 files "ghostscript" quality (some pw)).servedDoc
        = some doc ∧
      doc.encryption = some pw ∧
      doc.pages = (gsOutDoc env ⟨mergedPagesOf files, none⟩).pages := by
  obtain ⟨fsF, hrun, hread, -⟩ :=
    @handler_gs env flate W fs0 files quality (some pw) hW hfresh hq hgood hnodup hne hben
  have ht : pyTruthy (some pw) = true := by
    unfold pyTruthy
    simp [hpw]
  refine ⟨gsFinalDoc env ⟨mergedPagesOf files, none⟩ (some pw), ?_, ?_, ?_⟩
  · rw [hrun]
    exact hread
  · unfold gsFinalDoc
    rw [if_pos ht]
    rfl
  · unfold gsFinalDoc
    rw [if_pos ht]

/-- Witness for C5 at a concrete request: the tool is absent (a benign
environment), one one-page upload, password `secret`; the served document
is encrypted with `secret` and keeps the merged pages. -/
theorem c5_external_password_encrypts_witness :
    gsBenign ⟨fun _ => none, GsOutcome.spawnFail⟩ ∧ ("secret" : String) ≠ "" ∧
    (∃ doc,
      (merge_pdf_files ⟨fun _ => none, GsOutcome.spawnFail⟩ id ["tmp", "w0"] ⟨[], []⟩
        [("a.pdf", ⟨[⟨1, [7]⟩], none⟩)] "ghostscript" "ebook" (some "secret")).servedDoc
        = some doc ∧
      doc.encryption = some "secret" ∧
      doc.pages = (gsOutDoc ⟨fun _ => none, GsOutcome.spawnFail⟩
        ⟨mergedPagesOf [("a.pdf", ⟨[⟨1, [7]⟩], none⟩)], none⟩).pages) :=
  ⟨by decide, by decide,
    c5_external_password_encrypts ⟨fun _ => none, GsOutcome.spawnFail⟩ id ["tmp", "w0"]
      ⟨[], []⟩ [("a.pdf", ⟨[⟨1, [7]⟩], none⟩)] "ebook" "secret" (by decide) (by decide)
      (by decide) (by decide) (by decide) (by decide) (by decide) (by decide)⟩

/-- Claim C7: for every valid input set, merging with `compress=builtin`
produces an output whose page count and page order (the sequence of page
identities) are identical to merging the same inputs with `compress=none`:
builtin compression only recompresses content streams, never adds, drops
or reorders pages. -/
theorem c7_builtin_preserves_page_structure (env : Env) (flate : List Nat → List Nat)
    (W : FsPath) (fs0 : Fs) (files : List (String × PdfDoc))
    (quality : String) (password : Option String)
    (hW : cleanPath W = true) (hfresh : Fs.noneUnder fs0 W = true)
    (hgood : goodUploads files = true)
    (hnodup : (files.map Prod.fst).Nodup) (hne : files ≠ []) :
    ∃ docB docN,
      (merge_pdf_files env flate W fs0 files "builtin" quality password).servedDoc
        = some docB ∧
      (merge_pdf_files env flate W fs0 files "none" quality password).servedDoc
        = some docN ∧
      docB.pages.length = docN.pages.length ∧
      docB.pages.map PdfPage.pid = docN.pages.map PdfPage.pid := by
  obtain ⟨fsB, hrunB, hreadB, -⟩ :=
    @handler_plain env flate W fs0 files "builtin" quality password hW hfresh
      (Or.inr rfl) hgood hnodup hne
  obtain ⟨fsN, hrunN, hreadN, -⟩ :=
    @handler_plain env flate W fs0 files "none" quality password hW hfresh
      (Or.inl rfl) hgood hnodup hne
  rw [if_pos (show ("builtin" : String) = "builtin" from rfl)] at hreadB
  rw [if_neg (show ¬(("none" : String) = "builtin") from by decide)] at hreadN
  refine ⟨⟨(mergedPagesOf files).map (compressPage flate), pwOpt password⟩,
    ⟨mergedPagesOf files, pwOpt password⟩, ?_, ?_, ?_, ?_⟩
  · rw [hrunB]
    exact hreadB
  · rw [hrunN]
    exact hreadN
  · exact List.length_map _ _
  · rw [List.map_map]
    rfl

/-- Witness for C7 at a concrete request: two uploads with three pages in
total; the builtin-compressed output and the uncompressed output have the
same length and the same page identities in the same order. -/
theorem c7_builtin_preserves_page_structure_witness :
    ∃ docB docN,
      (merge_pdf_files ⟨fun _ => none, GsOutcome.spawnFail⟩ id ["tmp", "w0"] ⟨[], []⟩
        [("b.pdf", ⟨[⟨1, [10]⟩, ⟨2, [20]⟩], none⟩), ("a.pdf", ⟨[⟨3, [30]⟩], none⟩)]
        "builtin" "ebook" none).servedDoc = some docB ∧
      (merge_pdf_files ⟨fun _ => none, GsOutcome.spawnFail⟩ id ["tmp", "w0"] ⟨[], []⟩
        [("b.pdf", ⟨[⟨1, [10]⟩, ⟨2, [20]⟩], none⟩), ("a.pdf", ⟨[⟨3, [30]⟩], none⟩)]
        "none" "ebook" none).servedDoc = some docN ∧
      docB.pages.length = docN.pages.length ∧
      docB.pages.map PdfPage.pid = docN.pages.map PdfPage.pid :=
  c7_builtin_preserves_page_structure ⟨fun _ => none, GsOutcome.spawnFail⟩ id
    ["tmp", "w0"] ⟨[], []⟩
    [("b.pdf", ⟨[⟨1, [10]⟩, ⟨2, [20]⟩], none⟩), ("a.pdf", ⟨[⟨3, [30]⟩], none⟩)]
    "ebook" none (by decide) (by decide) (by decide) (by decide) (by decide)

/-- Claim C4 (amended): the external compressor returns `false` with no
other action when no candidate executable is found, and returns `false`
when the spawned process exits with a nonzero status; it returns `true`
only when the process exits successfully.  Whenever it reports failure
this way, the orchestrator serves the pre-compression merged artifact and
the tool failure is not surfaced to the client as an error.  Contrary to
the claim, a spawn failure is NOT converted to `false`: only
`CalledProcessError` is caught, so the `OSError` escapes (see the
counterexample). -/
theorem c4_tool_failure_semantics :
    (∀ (env : Env) (fs : Fs) (i o q : String), whichGs env = none →
      compress_with_ghostscript env fs i o q = .ok (false, fs)) ∧
    (∀ (env : Env) (fs : Fs) (i o q : String) (c : Nat) (d : PdfDoc),
      env.gs = GsOutcome.exited (c + 1) d →
      compress_with_ghostscript env fs i o q = .ok (false, fs)) ∧
    (∀ (env : Env) (fs fs1 : Fs) (i o q : String),
      compress_with_ghostscript env fs i o q = .ok (true, fs1) →
      ∃ out, env.gs = GsOutcome.exited 0 out) ∧
    (∀ (env : Env) (flate : List Nat → List Nat) (W : FsPath) (fs0 : Fs)
      (files : List (String × PdfDoc)) (quality : String),
      cleanPath W = true → Fs.noneUnder fs0 W = true →
      valid_quality.contains quality = true → goodUploads files = true →
      (files.map Prod.fst).Nodup → files ≠ [] →
      (whichGs env = none ∨ ∃ c d, env.gs = GsOutcome.exited (c + 1) d) →
      ∃ fsF,
        merge_pdf_files env flate W fs0 files "ghostscript" quality none =
          .success ⟨W ++ ["output", "merged.pdf"], "merged.pdf", "application/pdf"⟩
            [BgTask.cleanupWorkspace W] fsF ∧
        fsF.readFile (W ++ ["output", "merged.pdf"]) =
          some ⟨mergedPagesOf files, none⟩) := by
  refine ⟨?_, ?_, ?_, ?_⟩
  · intro env fs i o q h
    unfold compress_with_ghostscript
    rw [h]
  · intro env fs i o q c d h
    unfold compress_with_ghostscript
    cases hw : whichGs env with
    | none => rfl
    | some p => rw [h]
  · intro env fs fs1 i o q h
    unfold compress_with_ghostscript at h
    cases hw : whichGs env with
    | none =>
      simp only [hw] at h
      cases h
    | some p =>
      simp only [hw] at h
      cases hg : env.gs with
      | exited code out =>
        cases code with
        | zero => exact ⟨out, rfl⟩
        | succ c =>
          simp only [hg] at h
          cases h
      | spawnFail =>
        simp only [hg] at h
        cases h
  · intro env flate W fs0 files quality hW hfresh hq hgood hnodup hne h7
    obtain ⟨fsF, hrun, hread, -⟩ :=
      @handler_gs env flate W fs0 files quality none hW hfresh hq hgood hnodup hne
        (gsBenign_of_failed h7)
    refine ⟨fsF, hrun, ?_⟩
    rw [hread]
    have hnt : ¬(pyTruthy (none : Option String) = true) := by decide
    have hfin : gsFinalDoc env ⟨mergedPagesOf files, none⟩ none
        = (⟨mergedPagesOf files, none⟩ : PdfDoc) := by
      unfold gsFinalDoc
      rw [if_neg hnt]
      exact gsOutDoc_of_failed h7
    rw [hfin]

/-- Witness for C4 at concrete environments: the tool absent, a nonzero
exit, a successful run, and the full request in which a tool-less
environment still yields HTTP success with the uncompressed merged
document. -/
theorem c4_tool_failure_semantics_witness :
    compress_with_ghostscript ⟨fun _ => none, GsOutcome.spawnFail⟩ ⟨[], []⟩
      "a.pdf" "b.pdf" "ebook" = .ok (false, ⟨[], []⟩) ∧
    compress_with_ghostscript ⟨fun _ => some "gs", GsOutcome.exited 1 ⟨[], none⟩⟩ ⟨[], []⟩
      "a.pdf" "b.pdf" "ebook" = .ok (false, ⟨[], []⟩) ∧
    (∃ out, (⟨fun _ => some "gs", GsOutcome.exited 0 ⟨[⟨5, [5]⟩], none⟩⟩ : Env).gs
      = GsOutcome.exited 0 out) ∧
    (∃ fsF,
      merge_pdf_files ⟨fun _ => none, GsOutcome.spawnFail⟩ id ["tmp", "w0"] ⟨[], []⟩
        [("a.pdf", ⟨[⟨1, [5]⟩], none⟩)] "ghostscript" "ebook" none =
        .success ⟨["tmp", "w0"] ++ ["output", "merged.pdf"], "merged.pdf",
          "application/pdf"⟩ [BgTask.cleanupWorkspace ["tmp", "w0"]] fsF ∧
      fsF.readFile (["tmp", "w0"] ++ ["output", "merged.pdf"]) =
        some ⟨mergedPagesOf [("a.pdf", ⟨[⟨1, [5]⟩], none⟩)], none⟩) :=
  ⟨c4_tool_failure_semantics.1 ⟨fun _ => none, GsOutcome.spawnFail⟩ ⟨[], []⟩
      "a.pdf" "b.pdf" "ebook" rfl,
   c4_tool_failure_semantics.2.1 ⟨fun _ => some "gs", GsOutcome.exited 1 ⟨[], none⟩⟩
      ⟨[], []⟩ "a.pdf" "b.pdf" "ebook" 0 ⟨[], none⟩ rfl,
   c4_tool_failure_semantics.2.2.1 ⟨fun _ => some "gs", GsOutcome.exited 0 ⟨[⟨5, [5]⟩], none⟩⟩
      ⟨[["o"]], []⟩ ⟨[["o"]], [(["o", "out.pdf"], ⟨[⟨5, [5]⟩], none⟩)]⟩
      "a.pdf" "/o/out.pdf" "ebook" rfl,
   c4_tool_failure_semantics.2.2.2 ⟨fun _ => none, GsOutcome.spawnFail⟩ id ["tmp", "w0"]
      ⟨[], []⟩ [("a.pdf", ⟨[⟨1, [5]⟩], none⟩)] "ebook" (by decide) (by decide) (by decide)
      (by decide) (by decide) (by decide) (Or.inl rfl)⟩

/-- Counterexample for C4: when a candidate executable is found but the
process fails to spawn, `compress_with_ghostscript` does not return
`false` — `subprocess.run` raises `OSError`, the `except` clause catches
only `CalledProcessError`, and the exception propagates. -/
theorem c4_spawn_failure_raises :
    compress_with_ghostscript ⟨fun _ => some "gs", GsOutcome.spawnFail⟩ ⟨[], []⟩
      "in.pdf" "out.pdf" "ebook" = .error (.osError "spawn failure") := rfl

/-- Claim C6: for every request, successful or failed, the per-request
workspace is gone by the end of the request and is destroyed exactly once:
after every request nothing remains at or below the workspace root; a
successful response schedules exactly one teardown task (to run after the
response) and the workspace still exists when the response is sent; a
failed request carries a filesystem in which the workspace has already
been removed. -/
theorem c6_workspace_destroyed_exactly_once (env : Env) (flate : List Nat → List Nat)
    (W : FsPath) (fs0 : Fs) (files : List (String × PdfDoc))
    (compress quality : String) (password : Option String)
    (hW : cleanPath W = true) (hfresh : Fs.noneUnder fs0 W = true) :
    ((merge_pdf_files env flate W fs0 files compress quality password).finalFs.noneUnder W
      = true) ∧
    (∀ resp bg fs, merge_pdf_files env flate W fs0 files compress quality password
        = .success resp bg fs → bg = [BgTask.cleanupWorkspace W] ∧ fs.hasDir W = true) ∧
    (∀ err fs, merge_pdf_files env flate W fs0 files compress quality password
        = .failure err fs → fs.noneUnder W = true) := by
  have hT : resolvePath (tempPathOf W) = W := resolve_tempPath hW
  simp only [merge_pdf_files, hT]
  by_cases h1 : ¬ valid_compress.contains compress = true
  · rw [if_pos h1]
    refine ⟨hfresh, ?_, ?_⟩
    · intro resp bg fs h
      cases h
    · intro err fs h
      cases h
      exact hfresh
  · rw [if_neg h1]
    by_cases h2 : compress = "ghostscript" ∧ ¬ valid_quality.contains quality = true
    · rw [if_pos h2]
      refine ⟨hfresh, ?_, ?_⟩
      · intro resp bg fs h
        cases h
      · intro err fs h
        cases h
        exact hfresh
    · rw [if_neg h2]
      cases htb : tryBody env flate (inputDirOf W) (outputDirOf W) files compress quality
          password (workspaceFs fs0 W) with
      | ok pr =>
        obtain ⟨fs5, mp⟩ := pr
        simp only [htb]
        have hdir5 : fs5.hasDir W = true :=
          tryBody_hasDir htb W (workspace_hasDir_temp hW)
        refine ⟨noneUnder_rmtree fs5 W, ?_, ?_⟩
        · intro resp bg fs h
          cases h
          exact ⟨rfl, hdir5⟩
        · intro err fs h
          cases h
      | error pr =>
        obtain ⟨e, fsE⟩ := pr
        simp only [htb]
        refine ⟨noneUnder_rmtree fsE W, ?_, ?_⟩
        · intro resp bg fs h
          cases h
        · intro err fs h
          cases h
          exact noneUnder_rmtree fsE W

/-- Witness for C6 at a concrete successful request: the workspace is
clean of residue after the request, the response schedules exactly one
teardown, and the error clause holds vacuously. -/
theorem c6_workspace_destroyed_exactly_once_witness :
    cleanPath ["tmp", "w0"] = true ∧
    Fs.noneUnder ⟨[], []⟩ ["tmp", "w0"] = true ∧
    (((merge_pdf_files ⟨fun _ => none, GsOutcome.spawnFail⟩ id ["tmp", "w0"] ⟨[], []⟩
        [("a.pdf", ⟨[⟨1, [1]⟩], none⟩)] "none" "ebook" none).finalFs.noneUnder ["tmp", "w0"]
      = true) ∧
    (∀ resp bg fs, merge_pdf_files ⟨fun _ => none, GsOutcome.spawnFail⟩ id ["tmp", "w0"]
        ⟨[], []⟩ [("a.pdf", ⟨[⟨1, [1]⟩], none⟩)] "none" "ebook" none
        = .success resp bg fs →
        bg = [BgTask.cleanupWorkspace ["tmp", "w0"]] ∧ fs.hasDir ["tmp", "w0"] = true) ∧
    (∀ err fs, merge_pdf_files ⟨fun _ => none, GsOutcome.spawnFail⟩ id ["tmp", "w0"]
        ⟨[], []⟩ [("a.pdf", ⟨[⟨1, [1]⟩], none⟩)] "none" "ebook" none
        = .failure err fs → fs.noneUnder ["tmp", "w0"] = true)) :=
  ⟨by decide, by decide,
    c6_workspace_destroyed_exactly_once ⟨fun _ => none, GsOutcome.spawnFail⟩ id
      ["tmp", "w0"] ⟨[], []⟩ [("a.pdf", ⟨[⟨1, [1]⟩], none⟩)] "none" "ebook" none
      (by decide) (by decide)⟩

/-- Claim C8: an unknown compression mode, and an unknown quality in the
external (`ghostscript`) mode, are rejected with the filesystem state
completely untouched — before the workspace is created and before any
upload is staged — and the quality value is consulted only in the
external mode: in modes `none` and `builtin` the outcome of the request
does not depend on the quality field at all. -/
theorem c8_validation_before_io (env : Env) (flate : List Nat → List Nat)
    (W : FsPath) (fs0 : Fs) (files : List (String × PdfDoc))
    (compress quality : String) (password : Option String) :
    (valid_compress.contains compress = false →
      merge_pdf_files env flate W fs0 files compress quality password =
        .failure (.direct 400 (.invalidCompress valid_compress)) fs0) ∧
    (valid_quality.contains quality = false →
      merge_pdf_files env flate W fs0 files "ghostscript" quality password =
        .failure (.direct 400 (.invalidQuality valid_quality)) fs0) ∧
    ((compress = "none" ∨ compress = "builtin") → ∀ q2,
      merge_pdf_files env flate W fs0 files compress quality password =
        merge_pdf_files env flate W fs0 files compress q2 password) := by
  refine ⟨?_, ?_, ?_⟩
  · intro h
    unfold merge_pdf_files
    rw [if_pos (by rw [h]; simp)]
  · intro h
    unfold merge_pdf_files
    rw [if_neg (fun hn => hn (by decide))]
    rw [if_pos ⟨rfl, by rw [h]; simp⟩]
  · intro hmode q2
    have hng : compress ≠ "ghostscript" := by
      rcases hmode with h | h <;> rw [h] <;> decide
    have hc : valid_compress.contains compress = true := by
      rcases hmode with h | h <;> rw [h] <;> decide
    simp only [merge_pdf_files]
    rw [if_neg (fun hn => hn hc), if_neg (fun hand => hng hand.1),
      if_neg (fun hn => hn hc), if_neg (fun hand => hng hand.1)]
    rw [tryBody_quality_irrel hng quality q2]

/-- Witness for C8 at concrete requests: `compress=turbo` is rejected
with the filesystem unchanged, `quality=turbo` in the external mode is
rejected with the filesystem unchanged, and in mode `none` a garbage
quality value gives exactly the same outcome as the default. -/
theorem c8_validation_before_io_witness :
    (valid_compress.contains "turbo" = false ∧
      merge_pdf_files ⟨fun _ => none, GsOutcome.spawnFail⟩ id ["tmp", "w0"] ⟨[], []⟩
        [("a.pdf", ⟨[⟨1, [1]⟩], none⟩)] "turbo" "ebook" none =
        .failure (.direct 400 (.invalidCompress valid_compress)) ⟨[], []⟩) ∧
    (valid_quality.contains "turbo" = false ∧
      merge_pdf_files ⟨fun _ => none, GsOutcome.spawnFail⟩ id ["tmp", "w0"] ⟨[], []⟩
        [("a.pdf", ⟨[⟨1, [1]⟩], none⟩)] "ghostscript" "turbo" none =
        .failure (.direct 400 (.invalidQuality valid_quality)) ⟨[], []⟩) ∧
    merge_pdf_files ⟨fun _ => none, GsOutcome.spawnFail⟩ id ["tmp", "w0"] ⟨[], []⟩
      [("a.pdf", ⟨[⟨1, [1]⟩], none⟩)] "none" "weird" none =
      merge_pdf_files ⟨fun _ => none, GsOutcome.spawnFail⟩ id ["tmp", "w0"] ⟨[], []⟩
      [("a.pdf", ⟨[⟨1, [1]⟩], none⟩)] "none" "ebook" none :=
  ⟨⟨by decide,
    (c8_validation_before_io ⟨fun _ => none, GsOutcome.spawnFail⟩ id ["tmp", "w0"]
      ⟨[], []⟩ [("a.pdf", ⟨[⟨1, [1]⟩], none⟩)] "turbo" "ebook" none).1 (by decide)⟩,
   ⟨by decide,
    (c8_validation_before_io ⟨fun _ => none, GsOutcome.spawnFail⟩ id ["tmp", "w0"]
      ⟨[], []⟩ [("a.pdf", ⟨[⟨1, [1]⟩], none⟩)] "ghostscript" "turbo" none).2.1
      (by decide)⟩,
   (c8_validation_before_io ⟨fun _ => none, GsOutcome.spawnFail⟩ id ["tmp", "w0"]
      ⟨[], []⟩ [("a.pdf", ⟨[⟨1, [1]⟩], none⟩)] "none" "weird" none).2.2
      (Or.inl rfl) "ebook"⟩

/-! ### Staging with duplicate filenames -/

lemma countKey_staged {W : FsPath} {n : String} :
    ∀ (files : List (String × PdfDoc)) (init : List (FsPath × PdfDoc)),
    countKey init (W ++ ["input", n]) ≤ 1 →
    countKey (stagedFilesList W files init) (W ++ ["input", n]) =
      (if n ∈ files.map Prod.fst then 1 else countKey init (W ++ ["input", n])) := by
  intro files
  induction files with
  | nil =>
    intro init hle
    rw [if_neg (by simp)]
    rfl
  | cons u rest ih =>
    intro init hle
    rw [show stagedFilesList W (u :: rest) init
        = stagedFilesList W rest (updateAssoc init (W ++ ["input", u.1]) u.2) from rfl]
    by_cases hu : u.1 = n
    · have h1 : countKey (updateAssoc init (W ++ ["input", u.1]) u.2) (W ++ ["input", n])
          = 1 := by
        rw [hu, countKey_updateAssoc_self]
        omega
      rw [ih _ (le_of_eq h1)]
      have hmem : n ∈ (u :: rest).map Prod.fst := by
        simp [hu]
      rw [if_pos hmem]
      by_cases hm : n ∈ rest.map Prod.fst
      · rw [if_pos hm]
      · rw [if_neg hm]
        exact h1
    · have hne2 : ¬(W ++ ["input", n]) = (W ++ ["input", u.1]) :=
        fun he => hu ((inputKey_inj he).symm)
      have h1 : countKey (updateAssoc init (W ++ ["input", u.1]) u.2) (W ++ ["input", n])
          = countKey init (W ++ ["input", n]) :=
        countKey_updateAssoc_ne _ _ _ _ hne2
      rw [ih _ (by rw [h1]; exact hle), h1]
      have hiff : (n ∈ (u :: rest).map Prod.fst) ↔ (n ∈ rest.map Prod.fst) := by
        rw [List.map_cons, List.mem_cons]
        constructor
        · intro hx
          rcases hx with hx | hx
          · exact absurd hx.symm hu
          · exact hx
        · intro hx
          exact Or.inr hx
      by_cases hm : n ∈ rest.map Prod.fst
      · rw [if_pos hm, if_pos (hiff.2 hm)]
      · rw [if_neg hm, if_neg (fun hx => hm (hiff.1 hx))]

lemma findVal_staged {W : FsPath} {n : String} :
    ∀ (files : List (String × PdfDoc)) (init : List (FsPath × PdfDoc)),
    findVal (stagedFilesList W files init) (W ++ ["input", n]) =
      (match lastUploadVal n files with
       | some v => some v
       | none => findVal init (W ++ ["input", n])) := by
  intro files
  induction files with
  | nil =>
    intro init
    rfl
  | cons u rest ih =>
    intro init
    rw [show stagedFilesList W (u :: rest) init
        = stagedFilesList W rest (updateAssoc init (W ++ ["input", u.1]) u.2) from rfl]
    rw [ih]
    rw [show lastUploadVal n (u :: rest)
        = (match lastUploadVal n rest with
           | some v => some v
           | none => if u.1 = n then some u.2 else none) from rfl]
    cases hl : lastUploadVal n rest with
    | some v =>
      rfl
    | none =>
      by_cases hu : u.1 = n
      · rw [if_pos hu]
        show findVal (updateAssoc init (W ++ ["input", u.1]) u.2) (W ++ ["input", n])
          = some u.2
        rw [hu]
        exact findVal_updateAssoc_self _ _ _
      · rw [if_neg hu]
        show findVal (updateAssoc init (W ++ ["input", u.1]) u.2) (W ++ ["input", n])
          = findVal init (W ++ ["input", n])
        exact findVal_updateAssoc_ne _ _ _ _ (fun he => hu ((inputKey_inj he).symm))

/-- Claim C9: a request in which several uploads share a filename is not
rejected for that reason — staging succeeds for any validly named upload
list, duplicates included — and exactly one staged file with that name
survives in the input partition, holding the content of the LAST upload
of that name (later writes overwrite earlier ones). -/
theorem c9_duplicate_filename_last_write_wins (W : FsPath) (fs0 : Fs)
    (files : List (String × PdfDoc)) (n : String)
    (hW : cleanPath W = true) (hfresh : Fs.noneUnder fs0 W = true)
    (hnames : files.all (fun u => goodName u.1) = true)
    (hmem : n ∈ files.map Prod.fst) :
    ∃ fs2, stageFiles (inputDirOf W) (workspaceFs fs0 W) files = .ok fs2 ∧
      countKey fs2.files (W ++ ["input", n]) = 1 ∧
      findVal fs2.files (W ++ ["input", n]) = lastUploadVal n files := by
  have h0 : countKey (workspaceFs fs0 W).files (W ++ ["input", n]) = 0 := by
    rw [workspaceFs_files]
    exact countKey_zero_of_noneUnder hfresh _ ⟨["input", n], rfl⟩
  refine ⟨_, stageFiles_ok hW files (workspaceFs fs0 W) hnames (workspace_hasDir_input hW),
    ?_, ?_⟩
  · show countKey (stagedFilesList W files (workspaceFs fs0 W).files) (W ++ ["input", n]) = 1
    rw [countKey_staged files _ (by rw [h0]; exact Nat.zero_le 1)]
    rw [if_pos hmem]
  · show findVal (stagedFilesList W files (workspaceFs fs0 W).files) (W ++ ["input", n])
      = lastUploadVal n files
    rw [findVal_staged]
    cases hl : lastUploadVal n files with
    | some v =>
      rfl
    | none =>
      exact findVal_eq_none_of_countKey_zero _ _ h0

/-- Witness for C9 at a concrete request: `a.pdf` is uploaded twice with
different contents (the name list is not duplicate-free); staging
succeeds, one staged file survives at the `a.pdf` input path, and it holds
the later upload's content, which is what `lastUploadVal` picks. -/
theorem c9_duplicate_filename_last_write_wins_witness :
    ¬([("a.pdf", (⟨[⟨1, [1]⟩], none⟩ : PdfDoc)), ("b.pdf", ⟨[⟨2, [2]⟩], none⟩),
        ("a.pdf", ⟨[⟨3, [3]⟩], none⟩)].map Prod.fst).Nodup ∧
    lastUploadVal "a.pdf" [("a.pdf", ⟨[⟨1, [1]⟩], none⟩), ("b.pdf", ⟨[⟨2, [2]⟩], none⟩),
        ("a.pdf", ⟨[⟨3, [3]⟩], none⟩)] = some ⟨[⟨3, [3]⟩], none⟩ ∧
    (∃ fs2, stageFiles (inputDirOf ["tmp", "w0"]) (workspaceFs ⟨[], []⟩ ["tmp", "w0"])
        [("a.pdf", ⟨[⟨1, [1]⟩], none⟩), ("b.pdf", ⟨[⟨2, [2]⟩], none⟩),
         ("a.pdf", ⟨[⟨3, [3]⟩], none⟩)] = .ok fs2 ∧
      countKey fs2.files (["tmp", "w0"] ++ ["input", "a.pdf"]) = 1 ∧
      findVal fs2.files (["tmp", "w0"] ++ ["input", "a.pdf"]) =
        lastUploadVal "a.pdf" [("a.pdf", ⟨[⟨1, [1]⟩], none⟩), ("b.pdf", ⟨[⟨2, [2]⟩], none⟩),
          ("a.pdf", ⟨[⟨3, [3]⟩], none⟩)]) :=
  ⟨by decide, by decide,
    c9_duplicate_filename_last_write_wins ["tmp", "w0"] ⟨[], []⟩
      [("a.pdf", ⟨[⟨1, [1]⟩], none⟩), ("b.pdf", ⟨[⟨2, [2]⟩], none⟩),
       ("a.pdf", ⟨[⟨3, [3]⟩], none⟩)] "a.pdf" (by decide) (by decide) (by decide)
      (by decide)⟩

/-- Claim C2 is false of the code as written (code bug): the filename and
empty-input-set validations raise `HTTPException(400, ...)` from inside
the handler's `try` block, whose blanket `except Exception` clause catches
them — FastAPI's `HTTPException` subclasses `Exception` — and re-raises
them as HTTP 500.  A request with a `report.txt` upload, and a request
with no uploads, both yield client status 500 (wrapping the intended 400
detail), not the claimed 400. -/
theorem c2_client_errors_surface_as_500 :
    (merge_pdf_files ⟨fun _ => none, GsOutcome.spawnFail⟩ id ["tmp", "w0"] ⟨[], []⟩
      [("report.txt", ⟨[⟨1, [1]⟩], none⟩)] "none" "ebook" none).clientStatus = 500 ∧
    (merge_pdf_files ⟨fun _ => none, GsOutcome.spawnFail⟩ id ["tmp", "w0"] ⟨[], []⟩
      [("report.txt", ⟨[⟨1, [1]⟩], none⟩)] "none" "ebook" none).errOf =
      some (.wrapped (.httpException 400 .onlyPdfAllowed)) ∧
    (merge_pdf_files ⟨fun _ => none, GsOutcome.spawnFail⟩ id ["tmp", "w0"] ⟨[], []⟩
      [] "none" "ebook" none).clientStatus = 500 ∧
    (merge_pdf_files ⟨fun _ => none, GsOutcome.spawnFail⟩ id ["tmp", "w0"] ⟨[], []⟩
      [] "none" "ebook" none).errOf =
      some (.wrapped (.httpException 400 .noValidPdf)) := by
  refine ⟨?_, ?_, ?_, ?_⟩ <;> decide

/-- Claim C3 (amended): every request whose `compress` form field is not
one of the allowed values is rejected, outside the `try` block, with HTTP
400 and a message listing the allowed values — which are `none`,
`builtin` and `ghostscript`, not `external` as the claim has it (see the
counterexample). -/
theorem c3_invalid_compress_rejected (env : Env) (flate : List Nat → List Nat)
    (W : FsPath) (fs0 : Fs) (files : List (String × PdfDoc))
    (compress quality : String) (password : Option String)
    (h : valid_compress.contains compress = false) :
    merge_pdf_files env flate W fs0 files compress quality password =
      .failure (.direct 400 (.invalidCompress ["none", "builtin", "ghostscript"])) fs0 ∧
    (merge_pdf_files env flate W fs0 files compress quality password).clientStatus
      = 400 := by
  have he : merge_pdf_files env flate W fs0 files compress quality password =
      .failure (.direct 400 (.invalidCompress valid_compress)) fs0 := by
    unfold merge_pdf_files
    rw [if_pos (by rw [h]; simp)]
  exact ⟨he, by rw [he]; rfl⟩

/-- Witness for C3 at a concrete request: `compress=turbo` is rejected
with a direct 400 listing `none`, `builtin`, `ghostscript`. -/
theorem c3_invalid_compress_rejected_witness :
    valid_compress.contains "turbo" = false ∧
    (merge_pdf_files ⟨fun _ => none, GsOutcome.spawnFail⟩ id ["tmp", "w0"] ⟨[], []⟩
        [("a.pdf", ⟨[⟨1, [1]⟩], none⟩)] "turbo" "ebook" none =
      .failure (.direct 400 (.invalidCompress ["none", "builtin", "ghostscript"]))
        ⟨[], []⟩ ∧
     (merge_pdf_files ⟨fun _ => none, GsOutcome.spawnFail⟩ id ["tmp", "w0"] ⟨[], []⟩
        [("a.pdf", ⟨[⟨1, [1]⟩], none⟩)] "turbo" "ebook" none).clientStatus = 400) :=
  ⟨by decide,
    c3_invalid_compress_rejected ⟨fun _ => none, GsOutcome.spawnFail⟩ id ["tmp", "w0"]
      ⟨[], []⟩ [("a.pdf", ⟨[⟨1, [1]⟩], none⟩)] "turbo" "ebook" none (by decide)⟩

/-- Counterexample for C3: the allowed set the service enforces and
advertises is `{none, builtin, ghostscript}`, not `{none, builtin,
external}` — `external` is absent from the allowed list and a request
with `compress=external` is itself rejected with HTTP 400. -/
theorem c3_external_not_allowed :
    valid_compress = ["none", "builtin", "ghostscript"] ∧
    valid_compress.contains "external" = false ∧
    (merge_pdf_files ⟨fun _ => none, GsOutcome.spawnFail⟩ id ["tmp", "w0"] ⟨[], []⟩
      [("a.pdf", ⟨[⟨1, [1]⟩], none⟩)] "external" "ebook" none).clientStatus = 400 ∧
    (merge_pdf_files ⟨fun _ => none, GsOutcome.spawnFail⟩ id ["tmp", "w0"] ⟨[], []⟩
      [("a.pdf", ⟨[⟨1, [1]⟩], none⟩)] "external" "ebook" none).errOf =
      some (.direct 400 (.invalidCompress ["none", "builtin", "ghostscript"])) := by
  refine ⟨rfl, ?_, ?_, ?_⟩ <;> decide

/-- Claim C10: the staged write path joins the input partition directory
with the client-supplied filename without sanitizing directory
components, so the filename `../x.pdf` passes the handler's validation
(non-empty, ends in `.pdf`), its write path resolves to `tmp/w0/x.pdf` —
outside the workspace's input partition `tmp/w0/input` — staging writes
the file there, and a full request carrying it succeeds (HTTP 200) while
leaving the escaped file outside the input partition. -/
theorem c10_path_traversal_escapes_input :
    (¬(("../x.pdf" : String) = "" ∨ ¬ pyEndsWith (pyLower "../x.pdf") ".pdf" = true)) ∧
    resolvePath (posixJoin (inputDirOf ["tmp", "w0"]) "../x.pdf")
      = ["tmp", "w0", "x.pdf"] ∧
    (resolvePath (posixJoin (inputDirOf ["tmp", "w0"]) "../x.pdf")).take 3
      ≠ ["tmp", "w0", "input"] ∧
    (∃ fs2, stageFiles (inputDirOf ["tmp", "w0"]) (workspaceFs ⟨[], []⟩ ["tmp", "w0"])
        [("../x.pdf", ⟨[⟨9, [9]⟩], none⟩)] = .ok fs2 ∧
      findVal fs2.files ["tmp", "w0", "x.pdf"] = some ⟨[⟨9, [9]⟩], none⟩) ∧
    (merge_pdf_files ⟨fun _ => none, GsOutcome.spawnFail⟩ id ["tmp", "w0"] ⟨[], []⟩
      [("a.pdf", ⟨[⟨1, [1]⟩], none⟩), ("../x.pdf", ⟨[⟨9, [9]⟩], none⟩)]
      "none" "ebook" none).clientStatus = 200 ∧
    findVal (merge_pdf_files ⟨fun _ => none, GsOutcome.spawnFail⟩ id ["tmp", "w0"]
      ⟨[], []⟩ [("a.pdf", ⟨[⟨1, [1]⟩], none⟩), ("../x.pdf", ⟨[⟨9, [9]⟩], none⟩)]
      "none" "ebook" none).fsOf.files ["tmp", "w0", "x.pdf"]
      = some ⟨[⟨9, [9]⟩], none⟩ := by
  refine ⟨by decide, by decide, by decide, ?_, by decide, by decide⟩
  refine ⟨_, rfl, ?_⟩
  decide

end FastPdf
